import Mathlib

/-! # libanh event core

A shallow embedding of `src/anh/event.cc` (the `BaseEvent` / `SimpleEvent` classes and the
event-weight comparators) together with a model of the `EventDispatcher` that the unit tests of
`src/anh/event_dispatcher_unittest.cc` exercise.

* `uint64_t` values are natural numbers, arithmetic on them is written with an explicit
  reduction modulo `2 ^ 64`;
* a shared pointer `IEventPtr` is an `Option`, `nullptr` being `none`;
* virtual member functions of the event classes are the fields of an `EventVTable`;
* callables (listener callbacks, completion callbacks) are pure; that they were invoked is
  recorded in a trace of `Effect`s.
-/

namespace anh

/-! ## Machine integers -/

/-- Number of values of a `uint64_t`. -/
def UINT64_MOD : Nat := 2 ^ 64

/-- Number of values of a `uint32_t`. -/
def UINT32_MOD : Nat := 2 ^ 32

/-- Addition of two `uint64_t` operands: the result wraps around modulo `2 ^ 64`. -/
def add_u64 (a b : Nat) : Nat := (a + b) % UINT64_MOD

/-- Conversion of a signed integer operand to `uint64_t` (usual arithmetic conversions of a
mixed signed/unsigned addition): the value modulo `2 ^ 64`. -/
def toUInt64 (p : Int) : Nat := (p % (UINT64_MOD : Int)).toNat

/-! ## Types of event.h -/

/-- Modelled from the spec: HashString (event.h and hash_string.h are not among the sources).
An event type is a value type that is compared through its 32-bit ident only. -/
structure EventType where
  ident : Nat
deriving DecidableEq

/-- Subject of an event, a `uint64_t` id. -/
abbrev EventSubject := Nat

/-- Modelled from the spec: EventPriority (event.h is not among the sources) is a signed
32-bit integer. -/
abbrev EventPriority := Int

/-- A completion callback `std::function<void ()>`, identified by a number; invoking it is
recorded in a trace. -/
abbrev EventCallback := Nat

/-- Range of a signed 32-bit priority. -/
def EventPriority.InRange (p : EventPriority) : Prop := -(2 : Int) ^ 31 ≤ p ∧ p < (2 : Int) ^ 31

instance (p : EventPriority) : Decidable (EventPriority.InRange p) := by
  unfold EventPriority.InRange; exact inferInstance

/-- Data members of `BaseEvent` (`subject_`, `priority_`, `timestamp_`, `delay_ms_`, `next_`,
`callback_`) followed by the data members `derived` of the concrete event class. -/
structure BaseEvent (P : Type) where
  subject_ : EventSubject
  priority_ : EventPriority
  timestamp_ : Nat
  delay_ms_ : Nat
  next_ : Option (BaseEvent P)
  callback_ : Option EventCallback
  derived : P

/-- An `IEventPtr` is a shared pointer to an event; `none` is `nullptr`. -/
abbrev IEventPtr (P : Type) := Option (BaseEvent P)

/-- The fields of an event hold values of their C++ types. -/
def BaseEvent.FieldsInRange {P : Type} (e : BaseEvent P) : Prop :=
  e.subject_ < UINT64_MOD ∧ e.timestamp_ < UINT64_MOD ∧ e.delay_ms_ < UINT64_MOD ∧
    EventPriority.InRange e.priority_

instance {P : Type} (e : BaseEvent P) : Decidable e.FieldsInRange := by
  unfold BaseEvent.FieldsInRange; exact inferInstance

namespace BaseEvent

variable {P : Type}

/-- Constructor `BaseEvent(EventSubject subject, uint64_t delay_ms)`. -/
def new (subject : EventSubject) (delay_ms : Nat) (derived : P) : BaseEvent P :=
  { subject_ := subject, priority_ := 0, timestamp_ := 0, delay_ms_ := delay_ms,
    next_ := none, callback_ := none, derived := derived }

/-- Constructor `BaseEvent(EventSubject subject, uint64_t delay_ms, EventCallback callback)`. -/
def newWithCallback (subject : EventSubject) (delay_ms : Nat) (callback : EventCallback)
    (derived : P) : BaseEvent P :=
  { subject_ := subject, priority_ := 0, timestamp_ := 0, delay_ms_ := delay_ms,
    next_ := none, callback_ := some callback, derived := derived }

/-- Accessor `subject() const`. -/
def subject (e : BaseEvent P) : EventSubject := e.subject_

/-- Mutator `subject(uint64_t)`. -/
def set_subject (e : BaseEvent P) (subject : Nat) : BaseEvent P := { e with subject_ := subject }

/-- Accessor `timestamp() const`. -/
def timestamp (e : BaseEvent P) : Nat := e.timestamp_

/-- Mutator `timestamp(uint64_t)`. -/
def set_timestamp (e : BaseEvent P) (timestamp : Nat) : BaseEvent P :=
  { e with timestamp_ := timestamp }

/-- Accessor `delay_ms() const`. -/
def delay_ms (e : BaseEvent P) : Nat := e.delay_ms_

/-- Mutator `delay_ms(uint64_t)`. -/
def set_delay_ms (e : BaseEvent P) (delay_ms : Nat) : BaseEvent P :=
  { e with delay_ms_ := delay_ms }

/-- Accessor `priority() const`. -/
def priority (e : BaseEvent P) : EventPriority := e.priority_

/-- Mutator `priority(EventPriority)`. -/
def set_priority (e : BaseEvent P) (priority : EventPriority) : BaseEvent P :=
  { e with priority_ := priority }

/-- Accessor `next() const`. -/
def next (e : BaseEvent P) : IEventPtr P := e.next_

/-- Mutator `next(IEventPtr)`. -/
def set_next (e : BaseEvent P) (next : IEventPtr P) : BaseEvent P := { e with next_ := next }

end BaseEvent

/-! ## Weight comparators -/

section Comparators

variable {P : Type}

/-- The operand `(e.timestamp() + e.delay_ms()) + e.priority()` of both comparators: two
`uint64_t` additions, the priority being converted to `uint64_t` for the second one. -/
def eventWeight (e : BaseEvent P) : Nat :=
  add_u64 (add_u64 e.timestamp e.delay_ms) (toUInt64 e.priority)

/-- The function `CompareEventWeightLessThan(const IEvent& lhs, const IEvent& rhs)`. -/
def CompareEventWeightLessThan (lhs rhs : BaseEvent P) : Bool :=
  decide (add_u64 (add_u64 lhs.timestamp lhs.delay_ms) (toUInt64 lhs.priority)
    < add_u64 (add_u64 rhs.timestamp rhs.delay_ms) (toUInt64 rhs.priority))

/-- The function `CompareEventWeightGreaterThan(const IEvent& lhs, const IEvent& rhs)`. -/
def CompareEventWeightGreaterThan (lhs rhs : BaseEvent P) : Bool :=
  decide (add_u64 (add_u64 lhs.timestamp lhs.delay_ms) (toUInt64 lhs.priority)
    > add_u64 (add_u64 rhs.timestamp rhs.delay_ms) (toUInt64 rhs.priority))

/-- The weight of the specification: the exact integer sum `timestamp + delay_ms + priority`. -/
def exactWeight (e : BaseEvent P) : Int :=
  (e.timestamp : Int) + (e.delay_ms : Int) + e.priority

end Comparators

/-! ## Byte buffers -/

/-- Modelled from the spec: anh::ByteBuffer (byte_buffer.h is not among the sources), the
byte-buffer collaborator that appends and consumes fixed-width integers: a FIFO of bytes,
written at the back and read from the front. -/
structure ByteBuffer where
  data : List (Fin 256)
deriving DecidableEq

/-- The four bytes of a 32-bit value, least significant byte first. -/
def encodeU32 (v : Nat) : List (Fin 256) :=
  [⟨v % 256, Nat.mod_lt _ (by decide)⟩, ⟨v / 256 % 256, Nat.mod_lt _ (by decide)⟩,
   ⟨v / 65536 % 256, Nat.mod_lt _ (by decide)⟩, ⟨v / 16777216 % 256, Nat.mod_lt _ (by decide)⟩]

/-- The 32-bit value of four bytes, least significant byte first. -/
def decodeU32 (b0 b1 b2 b3 : Fin 256) : Nat :=
  b0.val + 256 * b1.val + 65536 * b2.val + 16777216 * b3.val

namespace ByteBuffer

/-- Member `size()`: the number of bytes held. -/
def size (b : ByteBuffer) : Nat := b.data.length

/-- Member `write<uint32_t>(v)`: appends the four bytes of `v`. -/
def write_u32 (b : ByteBuffer) (v : Nat) : ByteBuffer := { data := b.data ++ encodeU32 v }

/-- Member `read<uint32_t>()`: consumes four bytes from the front and returns their value
together with the buffer that is left; there is no value when fewer than four bytes are held. -/
def read_u32 (b : ByteBuffer) : Option (Nat × ByteBuffer) :=
  match b.data with
  | b0 :: b1 :: b2 :: b3 :: rest => some (decodeU32 b0 b1 b2 b3, { data := rest })
  | _ => none

end ByteBuffer

/-! ## Virtual member functions and the operations of BaseEvent -/

/-- The virtual member functions that a concrete event class supplies to `BaseEvent`:
`event_type()`, `onSerialize(ByteBuffer&)`, `onDeserialize(ByteBuffer&)` and
`onConsume(bool)`. A hook that receives a buffer by reference returns the buffer it leaves;
`onDeserialize`, the only non-const one, also returns the event it leaves. -/
structure EventVTable (P : Type) where
  event_type : BaseEvent P → EventType
  onSerialize : BaseEvent P → ByteBuffer → ByteBuffer
  onDeserialize : BaseEvent P → ByteBuffer → BaseEvent P × ByteBuffer
  onConsume : BaseEvent P → Bool → Bool

/-- What a call of `BaseEvent::deserialize` leaves behind: the event, the buffer, whether the
buffer was rejected (the `assert` branch), and the buffers `onDeserialize` was called with. -/
structure DeserializeResult (P : Type) where
  event : BaseEvent P
  buffer : ByteBuffer
  rejected : Bool
  hookCalls : List ByteBuffer

namespace BaseEvent

variable {P : Type}

/-- The member function `BaseEvent::serialize(ByteBuffer& out) const`; returns `out`. -/
def serialize (V : EventVTable P) (e : BaseEvent P) (out : ByteBuffer) : ByteBuffer :=
  V.onSerialize e (out.write_u32 (V.event_type e).ident)

/-- The member function `BaseEvent::deserialize(ByteBuffer& in)`. The left operand of `||`
short-circuits the read of the ident. -/
def deserialize (V : EventVTable P) (e : BaseEvent P) (input : ByteBuffer) :
    DeserializeResult P :=
  if input.size < 4 then
    { event := e, buffer := input, rejected := true, hookCalls := [] }
  else
    match input.read_u32 with
    | none => { event := e, buffer := input, rejected := true, hookCalls := [] }
    | some (ident, rest) =>
      if (V.event_type e).ident ≠ ident then
        { event := e, buffer := rest, rejected := true, hookCalls := [] }
      else
        { event := (V.onDeserialize e rest).1, buffer := (V.onDeserialize e rest).2,
          rejected := false, hookCalls := [rest] }

/-- The member function `BaseEvent::consume(bool handled) const`; returns the completion
callbacks it invoked, in order. -/
def consume (V : EventVTable P) (e : BaseEvent P) (handled : Bool) : List EventCallback :=
  if V.onConsume e handled then
    match e.callback_ with
    | some callback => [callback]
    | none => []
  else []

end BaseEvent

/-! ## SimpleEvent -/

namespace SimpleEvent

/-- Constructor `SimpleEvent(EventType&, uint64_t subject_id, uint64_t delay_ms)`; the data
member of the class is `event_type_`. -/
def new (event_type : EventType) (subject_id delay_ms : Nat) : BaseEvent EventType :=
  BaseEvent.new subject_id delay_ms event_type

/-- Constructor `SimpleEvent(EventType&, uint64_t, uint64_t, EventCallback)`. -/
def newWithCallback (event_type : EventType) (subject_id delay_ms : Nat)
    (callback : EventCallback) : BaseEvent EventType :=
  BaseEvent.newWithCallback subject_id delay_ms callback event_type

/-- The virtual member functions of `SimpleEvent`. -/
def vtable : EventVTable EventType where
  event_type := fun e => e.derived
  onSerialize := fun _ out => out
  onDeserialize := fun e input => (e, input)
  onConsume := fun _ _ => true

end SimpleEvent

/-! ## MockEvent of the unit tests -/

namespace MockEvent

/-- Conversion of an `int` to the 32-bit pattern that `out << some_event_val_` writes. -/
def toUInt32 (v : Int) : Nat := (v % (UINT32_MOD : Int)).toNat

/-- Conversion of a 32-bit pattern to the `int` that `in.read<int>()` returns. -/
def toInt32 (v : Nat) : Int := if v < 2 ^ 31 then (v : Int) else (v : Int) - (UINT32_MOD : Int)

/-- Constructor `MockEvent(uint64_t subject_id = 0, uint64_t delay_ms = 0)`; the data member of
the class is `some_event_val_`. -/
def new (subject_id delay_ms : Nat) : BaseEvent Int :=
  BaseEvent.new subject_id delay_ms 0

/-- Constructor `MockEvent(uint64_t subject_id, uint64_t delay_ms, EventCallback callback)`. -/
def newWithCallback (subject_id delay_ms : Nat) (callback : EventCallback) : BaseEvent Int :=
  BaseEvent.newWithCallback subject_id delay_ms callback 0

/-- Accessor `some_event_val() const`. -/
def some_event_val (e : BaseEvent Int) : Int := e.derived

/-- Mutator `some_event_val(int)`. -/
def set_some_event_val (e : BaseEvent Int) (some_event_val : Int) : BaseEvent Int :=
  { e with derived := some_event_val }

/-- The virtual member functions of `MockEvent`; `event_type_` is the static member
`EventType("mock_event")`. A read from a buffer that holds fewer than four bytes leaves
the event as it is. -/
def vtable (event_type_ : EventType) : EventVTable Int where
  event_type := fun _ => event_type_
  onSerialize := fun e out => out.write_u32 (toUInt32 e.derived)
  onDeserialize := fun e input =>
    match input.read_u32 with
    | some (v, rest) => ({ e with derived := toInt32 v }, rest)
    | none => (e, input)
  onConsume := fun _ _ => true

end MockEvent

/-! ## The event dispatcher -/

/-- Modelled from the spec: EventListener (event_dispatcher.h is not among the sources), the
pair of an `EventListenerType`, given by its ident, and the callable `EventListenerCallback`. -/
structure EventListener (P : Type) where
  first : Nat
  second : BaseEvent P → Bool

/-- What a dispatcher does to the outside, in the order it does it: it starts the delivery
of an event, calls a listener, fires a completion callback. `seq` is the insertion sequence
number of the event when it came out of the queue and `none` for an event passed to
`deliver`. -/
inductive Effect (P : Type) where
  | delivering (seq : Option Nat) (event : BaseEvent P)
  | listener (listener_type : Nat) (seq : Option Nat) (event : BaseEvent P)
  | callback (cb : EventCallback) (seq : Option Nat) (event : BaseEvent P)

/-- The sequence number an effect belongs to. -/
def Effect.seq {P : Type} : Effect P → Option Nat
  | .delivering s _ => s
  | .listener _ s _ => s
  | .callback _ s _ => s

/-- Modelled from the spec: an element of the event queue, the insertion sequence number and
the event; the weight is computed from the event, which does not change while it waits. -/
structure QueueEntry (P : Type) where
  seq : Nat
  event : BaseEvent P

/-- Modelled from the spec: EventDispatcher (event_dispatcher.h and event_dispatcher.cc are not
among the sources). The registry maps the ident of an event type to the ordered list of its
listeners, the queue holds the pending events, `trace` records the effects so far. -/
structure EventDispatcher (P : Type) where
  event_listeners : Nat → List (EventListener P)
  event_queue : List (QueueEntry P)
  current_timestep : Nat
  next_seq : Nat
  trace : List (Effect P)

section Queue

variable {P : Type}

/-- Number of events of a chain: the event and the events reachable through `next`. -/
def chainLength : BaseEvent P → Nat
  | ⟨_, _, _, _, none, _, _⟩ => 1
  | ⟨_, _, _, _, some n, _, _⟩ => chainLength n + 1

/-- Number of events a queue can still give rise to. -/
def queueSize : List (QueueEntry P) → Nat
  | [] => 0
  | x :: xs => chainLength x.event + queueSize xs

/-- Modelled from the spec: the order of the min-heap, by weight (through the comparators of
event.cc) and, for equal weights, by insertion sequence. -/
def QueueEntry.before (a b : QueueEntry P) : Bool :=
  CompareEventWeightLessThan a.event b.event ||
    (!CompareEventWeightGreaterThan a.event b.event && decide (a.seq < b.seq))

/-- Modelled from the spec: the head of the min-heap and the heap without it. -/
def popMin : List (QueueEntry P) → Option (QueueEntry P × List (QueueEntry P))
  | [] => none
  | x :: xs =>
    match popMin xs with
    | none => some (x, [])
    | some (m, rest) => if m.before x then some (m, x :: rest) else some (x, xs)

/-- Modelled from the spec: `pop_due(current_time)` returns the head when its weight is at
most `current_time`. -/
def popDue (q : List (QueueEntry P)) (current_time : Nat) :
    Option (QueueEntry P × List (QueueEntry P)) :=
  match popMin q with
  | none => none
  | some (m, rest) => if eventWeight m.event ≤ current_time then some (m, rest) else none

end Queue

namespace EventDispatcher

variable {P : Type}

/-- Modelled from the spec: construction with an explicit initial timestamp; the default
constructor is `create 0`. -/
def create (current_timestep : Nat) : EventDispatcher P :=
  { event_listeners := fun _ => [], event_queue := [], current_timestep := current_timestep,
    next_seq := 0, trace := [] }

/-- Modelled from the spec: `getListeners(event_type)`. -/
def getListeners (d : EventDispatcher P) (event_type : EventType) : List (EventListener P) :=
  d.event_listeners event_type.ident

/-- Modelled from the spec: `notify(event)`; a null event is ignored, any other event is
stamped with the current time and inserted with the next sequence number. -/
def notify (d : EventDispatcher P) (event : IEventPtr P) : EventDispatcher P :=
  match event with
  | none => d
  | some e =>
    { d with
      event_queue := d.event_queue ++
        [{ seq := d.next_seq, event := e.set_timestamp d.current_timestep }],
      next_seq := d.next_seq + 1 }

/-- Modelled from the spec: the effects of steps 3 to 5 of `deliver`, the listeners of the
type of the event, then the wildcard listeners, then what `consume` does with the conjunction
of their results. -/
def deliveryEffects (V : EventVTable P) (W : EventType) (d : EventDispatcher P)
    (seq : Option Nat) (e : BaseEvent P) : List (Effect P) :=
  Effect.delivering seq e ::
    ((d.getListeners (V.event_type e) ++ d.getListeners W).map
      (fun l => Effect.listener l.first seq e) ++
    (e.consume V ((d.getListeners (V.event_type e) ++ d.getListeners W).all
      (fun l => l.second e))).map (fun cb => Effect.callback cb seq e))

/-- Modelled from the spec: steps 3 to 6 of `deliver`, for an event that carries its
timestamp. `W` is the wildcard event type `kWildCardHashString`. -/
def dispatch (V : EventVTable P) (W : EventType) (d : EventDispatcher P) (seq : Option Nat)
    (e : BaseEvent P) : EventDispatcher P :=
  notify { d with trace := d.trace ++ deliveryEffects V W d seq e } e.next

/-- Modelled from the spec: `deliver(event)`. -/
def deliver (V : EventVTable P) (W : EventType) (d : EventDispatcher P) (event : IEventPtr P) :
    EventDispatcher P × Bool :=
  match event with
  | none => (d, false)
  | some e => (dispatch V W d none (e.set_timestamp d.current_timestep), true)

/-- Modelled from the spec: the loop of `tick`, at most `fuel` rounds of it. -/
def drain (V : EventVTable P) (W : EventType) : Nat → EventDispatcher P → EventDispatcher P
  | 0, d => d
  | fuel + 1, d =>
    match popDue d.event_queue d.current_timestep with
    | none => d
    | some (m, rest) =>
      drain V W fuel (dispatch V W { d with event_queue := rest } (some m.seq) m.event)

/-- Modelled from the spec: `tick(new_time)`. Every round of the loop takes one event out of
the chains in the queue, so `queueSize` rounds are enough to finish the loop. -/
def tick (V : EventVTable P) (W : EventType) (d : EventDispatcher P) (new_time : Nat) :
    EventDispatcher P × Bool :=
  if new_time < d.current_timestep then (d, false)
  else
    (drain V W (queueSize d.event_queue) { d with current_timestep := new_time }, true)

/-- Modelled from the spec: a sequence of `tick` calls. -/
def ticks (V : EventVTable P) (W : EventType) (d : EventDispatcher P) :
    List Nat → EventDispatcher P
  | [] => d
  | t :: ts => ticks V W (tick V W d t).1 ts

/-- Sequence numbers in the queue are pairwise different and below the insertion counter.
This holds of a fresh dispatcher and is kept by `notify`, `deliver` and `tick`. -/
def WellFormed (d : EventDispatcher P) : Prop :=
  (d.event_queue.map QueueEntry.seq).Nodup ∧ ∀ x ∈ d.event_queue, x.seq < d.next_seq

instance (d : EventDispatcher P) : Decidable d.WellFormed := by
  unfold WellFormed; exact inferInstance

end EventDispatcher

/-! ## Observations on buffers and traces -/

/-- The 32-bit value at the front of a buffer, when it holds four bytes. -/
def ByteBuffer.front_u32 (b : ByteBuffer) : Option Nat :=
  match b.data with
  | b0 :: b1 :: b2 :: b3 :: _ => some (decodeU32 b0 b1 b2 b3)
  | _ => none

section Observations

variable {P : Type}

/-- The listener types invoked in a trace for the event of sequence number `seq`, in order. -/
def invokedListeners (seq : Option Nat) : List (Effect P) → List Nat
  | [] => []
  | .listener l s _ :: tr =>
    if s = seq then l :: invokedListeners seq tr else invokedListeners seq tr
  | _ :: tr => invokedListeners seq tr

/-- The events whose delivery started in a trace under the sequence number `seq`. -/
def deliveredEvents (seq : Option Nat) : List (Effect P) → List (BaseEvent P)
  | [] => []
  | .delivering s e :: tr =>
    if s = seq then e :: deliveredEvents seq tr else deliveredEvents seq tr
  | _ :: tr => deliveredEvents seq tr

end Observations

/-- The effects of a trace that belong to the sequence number `seq`. -/
def effectsOf {P : Type} (seq : Option Nat) (tr : List (Effect P)) : List (Effect P) :=
  tr.filter (fun x => decide (x.seq = seq))

/-- The event an effect is about. -/
def Effect.event {P : Type} : Effect P → BaseEvent P
  | .delivering _ e => e
  | .listener _ _ e => e
  | .callback _ _ e => e

/-! ## Invariants of the loop of tick -/

section Invariants

variable {P : Type}

/-- The delivery of the queue entry `q` is complete in a trace: its start and the invocation
of each listener of `ls` for it are in the trace. -/
def DeliveryDone (q : QueueEntry P) (ls : List (EventListener P)) (tr : List (Effect P)) : Prop :=
  Effect.delivering (some q.seq) q.event ∈ tr ∧
    ∀ l ∈ ls, Effect.listener l.first (some q.seq) q.event ∈ tr

/-- An effect of a trace belongs to the queue entry `q`. -/
def Effect.IsOf (q : QueueEntry P) (x : Effect P) : Prop :=
  x.seq = some q.seq ∧ x.event = q.event

/-- Every effect of `q2` in a trace comes after the complete delivery of `q1`. -/
def DeliveredBefore (q1 q2 : QueueEntry P) (ls : List (EventListener P))
    (tr : List (Effect P)) : Prop :=
  ∀ pre x post, tr = pre ++ x :: post → x.IsOf q2 → DeliveryDone q1 ls pre

/-- The invariant of the order of delivery: the registry is `L`, the trace is `T` followed by
effects among which `q1` comes before `q2`, and `q1` is waiting in the queue, nothing of `q2`
having happened, or its delivery is complete. -/
def OrderInv (V : EventVTable P) (W : EventType) (L : Nat → List (EventListener P))
    (T : List (Effect P)) (q1 q2 : QueueEntry P) (d : EventDispatcher P) : Prop :=
  d.event_listeners = L ∧
  ∃ tr, d.trace = T ++ tr ∧
    DeliveredBefore q1 q2 (L (V.event_type q1.event).ident ++ L W.ident) tr ∧
    ((q1 ∈ d.event_queue ∧ ∀ x ∈ tr, ¬ x.IsOf q2) ∨
      DeliveryDone q1 (L (V.event_type q1.event).ident ++ L W.ident) tr)

end Invariants

section Tracking

variable {P : Type}

/-- What the loop of `tick` keeps while the queue entry `q` is followed: sequence numbers stay
well formed, the number of `q` has been given out, the registry is the one of `d0`. -/
def Tracked (d0 : EventDispatcher P) (q : QueueEntry P) (d : EventDispatcher P) : Prop :=
  d.WellFormed ∧ q.seq < d.next_seq ∧ d.event_listeners = d0.event_listeners

/-- The entry `q` is waiting: it is in the queue and the trace after `T` has no effect of it. -/
def Waiting (T : List (Effect P)) (q : QueueEntry P) (d : EventDispatcher P) : Prop :=
  ∃ tr, d.trace = T ++ tr ∧ q ∈ d.event_queue ∧ effectsOf (some q.seq) tr = []

/-- The entry `q` has been delivered once: its number is no longer in the queue and its
effects in the trace after `T` are those of one delivery. -/
def DeliveredOnce (V : EventVTable P) (W : EventType) (d0 : EventDispatcher P)
    (T : List (Effect P)) (q : QueueEntry P) (d : EventDispatcher P) : Prop :=
  ∃ tr, d.trace = T ++ tr ∧ (∀ y ∈ d.event_queue, y.seq ≠ q.seq) ∧
    effectsOf (some q.seq) tr = EventDispatcher.deliveryEffects V W d0 (some q.seq) q.event

end Tracking

/-! ## Fixtures of the unit tests -/

namespace Fixture

/-- The event type `EventType("mock_event")` of the tests; the ident stands for the hash of
the name, which the sources do not fix. -/
def mock_event : EventType := { ident := 7 }

/-- The wildcard event type `kWildCardHashString`; the ident stands for its hash. -/
def kWildCardHashString : EventType := { ident := 0 }

/-- The listener of the tests, connected under the listener type of ident 11 to
`mock_event`; `MockListener::handleEvent` returns true. -/
def MockListener : EventListener Int := { first := 11, second := fun _ => true }

/-- A dispatcher created at `current_timestep` with `MockListener` connected to
`mock_event`. -/
def dispatcher (current_timestep : Nat) : EventDispatcher Int :=
  { event_listeners := fun ident => if ident = 7 then [MockListener] else [],
    event_queue := [], current_timestep := current_timestep, next_seq := 0, trace := [] }

/-- The virtual member functions of the MockEvent of the tests. -/
def vtable : EventVTable Int := MockEvent.vtable mock_event

end Fixture

namespace Fixture

end Fixture

/-! ## The listener registry -/

namespace EventDispatcher

variable {P : Type}

/-- Modelled from the spec: `connect(event_type, listener)` appends the entry to the list of
the event type; when the list has an entry of the same listener type, the new entry takes
its place. -/
def connect (d : EventDispatcher P) (event_type : EventType) (listener : EventListener P) :
    EventDispatcher P :=
  { d with
    event_listeners := fun ident =>
      if ident = event_type.ident then
        if (d.event_listeners ident).any (fun l => decide (l.first = listener.first)) then
          (d.event_listeners ident).map
            (fun l => if l.first = listener.first then listener else l)
        else d.event_listeners ident ++ [listener]
      else d.event_listeners ident }

/-- Modelled from the spec: `disconnect(event_type, listener_type)` removes the entry of the
listener type from the list of the event type and does nothing when there is none. -/
def disconnect (d : EventDispatcher P) (event_type : EventType) (listener_type : Nat) :
    EventDispatcher P :=
  { d with
    event_listeners := fun ident =>
      if ident = event_type.ident then
        (d.event_listeners ident).filter (fun l => decide (l.first ≠ listener_type))
      else d.event_listeners ident }

/-- Modelled from the spec: `disconnectFromAll(listener_type)` removes the entry of the
listener type from the list of every event type. -/
def disconnectFromAll (d : EventDispatcher P) (listener_type : Nat) : EventDispatcher P :=
  { d with
    event_listeners := fun ident =>
      (d.event_listeners ident).filter (fun l => decide (l.first ≠ listener_type)) }

end EventDispatcher


/-! # Theorems -/

/-! ## Weight comparators -/

section ComparatorTheorems

variable {P : Type}

theorem UINT64_MOD_pos : (0 : Int) < (UINT64_MOD : Int) := by
  unfold UINT64_MOD; norm_num

/-- The weight the comparators compute is the exact sum reduced modulo `2 ^ 64`. -/
theorem eventWeight_eq_emod (e : BaseEvent P) :
    ((eventWeight e : Nat) : Int) = exactWeight e % (UINT64_MOD : Int) := by
  unfold eventWeight add_u64 toUInt64 exactWeight
  have h := Int.toNat_of_nonneg (Int.emod_nonneg e.priority (ne_of_gt UINT64_MOD_pos))
  push_cast
  rw [h, Int.emod_add_emod, Int.add_emod_emod]

theorem CompareEventWeightLessThan_iff (a b : BaseEvent P) :
    CompareEventWeightLessThan a b = true ↔ eventWeight a < eventWeight b := by
  simp [CompareEventWeightLessThan, eventWeight]

theorem CompareEventWeightGreaterThan_iff (a b : BaseEvent P) :
    CompareEventWeightGreaterThan a b = true ↔ eventWeight b < eventWeight a := by
  simp [CompareEventWeightGreaterThan, eventWeight]

/-- For exact sums within the 64-bit range the comparator agrees with their order. -/
theorem CompareEventWeightLessThan_of_exact (a b : BaseEvent P) (ha : 0 ≤ exactWeight a)
    (hab : exactWeight a < exactWeight b) (hb : exactWeight b < (UINT64_MOD : Int)) :
    CompareEventWeightLessThan a b = true := by
  rw [CompareEventWeightLessThan_iff, ← Int.ofNat_lt, eventWeight_eq_emod, eventWeight_eq_emod,
    Int.emod_eq_of_lt ha (lt_trans hab hb), Int.emod_eq_of_lt (le_trans ha (le_of_lt hab)) hb]
  exact hab

/-- C1, as amended: `CompareEventWeightLessThan` and `CompareEventWeightGreaterThan` compare
the sums `timestamp + delay_ms + priority` reduced modulo `2 ^ 64`, the 64-bit unsigned
arithmetic of the code; whenever both exact sums lie in `[0, 2 ^ 64)` this is the comparison of
the exact integer sums. -/
theorem CompareEventWeight_modular (a b : BaseEvent P) :
    (CompareEventWeightLessThan a b = true ↔
        exactWeight a % (UINT64_MOD : Int) < exactWeight b % (UINT64_MOD : Int)) ∧
    (CompareEventWeightGreaterThan a b = true ↔
        exactWeight a % (UINT64_MOD : Int) > exactWeight b % (UINT64_MOD : Int)) ∧
    (0 ≤ exactWeight a → exactWeight a < (UINT64_MOD : Int) →
      0 ≤ exactWeight b → exactWeight b < (UINT64_MOD : Int) →
        (CompareEventWeightLessThan a b = true ↔ exactWeight a < exactWeight b) ∧
        (CompareEventWeightGreaterThan a b = true ↔ exactWeight a > exactWeight b)) := by
  have hlt : CompareEventWeightLessThan a b = true ↔
      exactWeight a % (UINT64_MOD : Int) < exactWeight b % (UINT64_MOD : Int) := by
    rw [CompareEventWeightLessThan_iff, ← eventWeight_eq_emod, ← eventWeight_eq_emod]
    exact Int.ofNat_lt.symm
  have hgt : CompareEventWeightGreaterThan a b = true ↔
      exactWeight a % (UINT64_MOD : Int) > exactWeight b % (UINT64_MOD : Int) := by
    rw [CompareEventWeightGreaterThan_iff, ← eventWeight_eq_emod, ← eventWeight_eq_emod]
    exact Int.ofNat_lt.symm
  refine ⟨hlt, hgt, ?_⟩
  intro ha0 ha1 hb0 hb1
  rw [Int.emod_eq_of_lt ha0 ha1, Int.emod_eq_of_lt hb0 hb1] at hlt hgt
  exact ⟨hlt, hgt⟩

/-- Two events with small fields: their comparison is the comparison of the exact sums. -/
theorem CompareEventWeight_modular_witness :
    (CompareEventWeightLessThan (BaseEvent.new 0 3 ()) (BaseEvent.new 0 5 ()) = true ↔
        exactWeight (BaseEvent.new 0 3 ()) < exactWeight (BaseEvent.new 0 5 ())) ∧
    (CompareEventWeightGreaterThan (BaseEvent.new 0 3 ()) (BaseEvent.new 0 5 ()) = true ↔
        exactWeight (BaseEvent.new 0 3 ()) > exactWeight (BaseEvent.new 0 5 ())) :=
  (CompareEventWeight_modular (BaseEvent.new 0 3 ()) (BaseEvent.new 0 5 ())).2.2
    (by decide) (by decide) (by decide) (by decide)

/-- The comparators do not compare the exact sums: an event of priority `-1` at time `0` has
the smaller exact sum (`-1 < 0`) and yet does not compare less, its 64-bit weight being
`2 ^ 64 - 1`; and an event whose `timestamp + delay_ms` passes `2 ^ 64` has the larger exact
sum and compares less. All fields hold values of their types. -/
theorem CompareEventWeight_exact_counterexample :
    (((BaseEvent.new 0 0 ()).set_priority (-1)).FieldsInRange ∧
      (BaseEvent.new 0 0 ()).FieldsInRange ∧
      exactWeight ((BaseEvent.new 0 0 ()).set_priority (-1)) < exactWeight (BaseEvent.new 0 0 ()) ∧
      CompareEventWeightLessThan ((BaseEvent.new 0 0 ()).set_priority (-1))
        (BaseEvent.new 0 0 ()) = false ∧
      CompareEventWeightGreaterThan ((BaseEvent.new 0 0 ()).set_priority (-1))
        (BaseEvent.new 0 0 ()) = true) ∧
    (((BaseEvent.new 0 1 ()).set_timestamp (2 ^ 64 - 1)).FieldsInRange ∧
      ((BaseEvent.new 0 0 ()).set_timestamp 1).FieldsInRange ∧
      exactWeight ((BaseEvent.new 0 1 ()).set_timestamp (2 ^ 64 - 1)) >
        exactWeight ((BaseEvent.new 0 0 ()).set_timestamp 1) ∧
      CompareEventWeightLessThan ((BaseEvent.new 0 1 ()).set_timestamp (2 ^ 64 - 1))
        ((BaseEvent.new 0 0 ()).set_timestamp 1) = true) := by
  refine ⟨⟨?_, ?_, ?_, ?_, ?_⟩, ?_, ?_, ?_, ?_⟩ <;> decide

end ComparatorTheorems

/-! ## Operations of BaseEvent -/

section BaseEventTheorems

variable {P : Type}

/-- C5: `BaseEvent::consume(handled)` invokes the completion callback exactly once when
`onConsume(handled)` returns true and the event has a callback, and not at all otherwise; the
callback it invokes is the one of the event. An event built by the two-argument constructor
has no callback, one built by the three-argument constructor has the callback supplied. -/
theorem BaseEvent.consume_invokes_callback (V : EventVTable P) (e : BaseEvent P)
    (handled : Bool) (subject delay_ms : Nat) (callback : EventCallback) (derived : P) :
    ((e.consume V handled).length =
        if V.onConsume e handled = true ∧ e.callback_.isSome = true then 1 else 0) ∧
    (∀ cb ∈ e.consume V handled, e.callback_ = some cb) ∧
    (BaseEvent.new subject delay_ms derived).consume V handled = [] ∧
    (BaseEvent.newWithCallback subject delay_ms callback derived).consume V handled =
      (if V.onConsume (BaseEvent.newWithCallback subject delay_ms callback derived) handled
        = true then [callback] else []) := by
  refine ⟨?_, ?_, ?_, ?_⟩
  · unfold BaseEvent.consume
    cases h : V.onConsume e handled <;> cases hc : e.callback_ <;> simp
  · intro cb hcb
    unfold BaseEvent.consume at hcb
    cases h : V.onConsume e handled <;> cases hc : e.callback_ <;> simp [h, hc] at hcb
    exact congrArg some hcb.symm
  · unfold BaseEvent.consume BaseEvent.new
    cases V.onConsume _ handled <;> simp
  · unfold BaseEvent.consume BaseEvent.newWithCallback
    cases V.onConsume _ handled <;> simp

theorem ByteBuffer.read_u32_of_size (b : ByteBuffer) (h : ¬ b.size < 4) :
    ∃ v, b.front_u32 = some v ∧ b.read_u32 = some (v, { data := b.data.drop 4 }) := by
  obtain ⟨data⟩ := b
  match data, h with
  | b0 :: b1 :: b2 :: b3 :: rest, _ => exact ⟨_, rfl, rfl⟩
  | [], h => exact absurd (by simp [ByteBuffer.size]) h
  | [_], h => exact absurd (by simp [ByteBuffer.size]) h
  | [_, _], h => exact absurd (by simp [ByteBuffer.size]) h
  | [_, _, _], h => exact absurd (by simp [ByteBuffer.size]) h

theorem ByteBuffer.front_u32_of_size_lt (b : ByteBuffer) (h : b.size < 4) :
    b.front_u32 = none := by
  obtain ⟨data⟩ := b
  match data, h with
  | [], _ => rfl
  | [_], _ => rfl
  | [_, _], _ => rfl
  | [_, _, _], _ => rfl
  | _ :: _ :: _ :: _ :: rest, h => exact absurd h (by simp [ByteBuffer.size])

/-- C6: `BaseEvent::deserialize` rejects the buffer exactly when it holds fewer than four
bytes or the 32-bit value at its front is not the ident of the event type of the event; a
rejected call does not call `onDeserialize`, every other call calls it once, on the buffer
without its first four bytes, and leaves what the hook leaves. -/
theorem BaseEvent.deserialize_rejects_iff (V : EventVTable P) (e : BaseEvent P)
    (input : ByteBuffer) :
    ((e.deserialize V input).rejected = true ↔
      (input.size < 4 ∨ input.front_u32 ≠ some (V.event_type e).ident)) ∧
    ((e.deserialize V input).rejected = true → (e.deserialize V input).hookCalls = []) ∧
    ((e.deserialize V input).rejected = false →
      (e.deserialize V input).hookCalls = [{ data := input.data.drop 4 }] ∧
      (e.deserialize V input).event = (V.onDeserialize e { data := input.data.drop 4 }).1 ∧
      (e.deserialize V input).buffer = (V.onDeserialize e { data := input.data.drop 4 }).2) := by
  by_cases hsz : input.size < 4
  · simp [BaseEvent.deserialize, hsz]
  · obtain ⟨v, hfront, hread⟩ := ByteBuffer.read_u32_of_size input hsz
    by_cases hid : (V.event_type e).ident = v
    · simp [BaseEvent.deserialize, hsz, hread, hfront, hid]
    · have hne : ¬ v = (V.event_type e).ident := fun h => hid h.symm
      simp [BaseEvent.deserialize, hsz, hread, hfront, hid, hne]

/-- Instances of deserialization: a three-byte buffer and a buffer of another ident are rejected without a
call of the hook, a buffer that starts with the ident is passed on after its four bytes. -/
theorem BaseEvent.deserialize_rejects_iff_witness :
    ((SimpleEvent.new ⟨7⟩ 0 0).deserialize SimpleEvent.vtable ⟨[7, 0, 0]⟩).hookCalls = [] ∧
    ((SimpleEvent.new ⟨7⟩ 0 0).deserialize SimpleEvent.vtable ⟨[8, 0, 0, 0, 1]⟩).hookCalls = [] ∧
    ((SimpleEvent.new ⟨7⟩ 0 0).deserialize SimpleEvent.vtable ⟨[7, 0, 0, 0, 1]⟩).hookCalls
      = [⟨[1]⟩] :=
  ⟨(BaseEvent.deserialize_rejects_iff SimpleEvent.vtable (SimpleEvent.new ⟨7⟩ 0 0)
      ⟨[7, 0, 0]⟩).2.1 (by decide),
   (BaseEvent.deserialize_rejects_iff SimpleEvent.vtable (SimpleEvent.new ⟨7⟩ 0 0)
      ⟨[8, 0, 0, 0, 1]⟩).2.1 (by decide),
   ((BaseEvent.deserialize_rejects_iff SimpleEvent.vtable (SimpleEvent.new ⟨7⟩ 0 0)
      ⟨[7, 0, 0, 0, 1]⟩).2.2 (by decide)).1⟩

/-- C7: when `BaseEvent::deserialize` rejects its buffer the event is what it was before the
call, all data members of `BaseEvent` and of the concrete class included, and the hook that
could change them was not called. -/
theorem BaseEvent.deserialize_rejected_unmodified (V : EventVTable P) (e : BaseEvent P)
    (input : ByteBuffer) (h : (e.deserialize V input).rejected = true) :
    (e.deserialize V input).event = e ∧ (e.deserialize V input).hookCalls = [] := by
  by_cases hsz : input.size < 4
  · simp [BaseEvent.deserialize, hsz]
  · obtain ⟨v, _, hread⟩ := ByteBuffer.read_u32_of_size input hsz
    by_cases hid : (V.event_type e).ident = v
    · simp [BaseEvent.deserialize, hsz, hread, hid] at h
    · simp [BaseEvent.deserialize, hsz, hread, hid]

/-- Instances of a rejected buffer: a MockEvent keeps its payload and members when the buffer is too short
and when the buffer carries another ident. -/
theorem BaseEvent.deserialize_rejected_unmodified_witness :
    (((MockEvent.set_some_event_val (MockEvent.newWithCallback 3 5 1) 42).deserialize
        (MockEvent.vtable ⟨7⟩) ⟨[7, 0]⟩).rejected = true ∧
      ((MockEvent.set_some_event_val (MockEvent.newWithCallback 3 5 1) 42).deserialize
        (MockEvent.vtable ⟨7⟩) ⟨[7, 0]⟩).event =
        MockEvent.set_some_event_val (MockEvent.newWithCallback 3 5 1) 42) ∧
    (((MockEvent.set_some_event_val (MockEvent.newWithCallback 3 5 1) 42).deserialize
        (MockEvent.vtable ⟨7⟩) ⟨[9, 0, 0, 0, 1, 0, 0, 0]⟩).rejected = true ∧
      ((MockEvent.set_some_event_val (MockEvent.newWithCallback 3 5 1) 42).deserialize
        (MockEvent.vtable ⟨7⟩) ⟨[9, 0, 0, 0, 1, 0, 0, 0]⟩).event =
        MockEvent.set_some_event_val (MockEvent.newWithCallback 3 5 1) 42) :=
  ⟨⟨by decide, (BaseEvent.deserialize_rejected_unmodified (MockEvent.vtable ⟨7⟩)
      (MockEvent.set_some_event_val (MockEvent.newWithCallback 3 5 1) 42) ⟨[7, 0]⟩
      (by decide)).1⟩,
   ⟨by decide, (BaseEvent.deserialize_rejected_unmodified (MockEvent.vtable ⟨7⟩)
      (MockEvent.set_some_event_val (MockEvent.newWithCallback 3 5 1) 42)
      ⟨[9, 0, 0, 0, 1, 0, 0, 0]⟩ (by decide)).1⟩⟩

/-- C8: `BaseEvent::serialize` hands to `onSerialize` the buffer with the four bytes of the
ident of the event type appended, so the bytes already in the buffer stay in front, the ident
follows them, and whatever the hook appends (`payload`) comes last; the ident read back from
those four bytes is the ident. A `SimpleEvent` appends the four ident bytes only. The member
function is const: it returns a buffer and no event. -/
theorem BaseEvent.serialize_appends (V : EventVTable P) (e : BaseEvent P) (out : ByteBuffer)
    (s : BaseEvent EventType) :
    e.serialize V out = V.onSerialize e { data := out.data ++ encodeU32 (V.event_type e).ident } ∧
    (∀ payload : List (Fin 256),
      (∀ b : ByteBuffer, V.onSerialize e b = { data := b.data ++ payload }) →
        (e.serialize V out).data = out.data ++ encodeU32 (V.event_type e).ident ++ payload) ∧
    (encodeU32 (V.event_type e).ident).length = 4 ∧
    ByteBuffer.front_u32 { data := encodeU32 (V.event_type e).ident }
      = some ((V.event_type e).ident % UINT32_MOD) ∧
    (s.serialize SimpleEvent.vtable out).data
      = out.data ++ encodeU32 (SimpleEvent.vtable.event_type s).ident := by
  refine ⟨rfl, ?_, rfl, ?_, rfl⟩
  · intro payload h
    simp [BaseEvent.serialize, h, ByteBuffer.write_u32]
  · simp only [ByteBuffer.front_u32, encodeU32, decodeU32, UINT32_MOD]
    congr 1
    omega

/-- Serialization of a MockEvent: a MockEvent of value 1 and ident 7 appends the ident and its value to a
buffer that holds one byte. -/
theorem BaseEvent.serialize_appends_witness :
    ((MockEvent.set_some_event_val (MockEvent.new 0 0) 1).serialize (MockEvent.vtable ⟨7⟩)
      ⟨[9]⟩).data = [9] ++ encodeU32 7 ++ [1, 0, 0, 0] :=
  (BaseEvent.serialize_appends (MockEvent.vtable ⟨7⟩)
    (MockEvent.set_some_event_val (MockEvent.new 0 0) 1) ⟨[9]⟩ (SimpleEvent.new ⟨7⟩ 0 0)).2.1
    [1, 0, 0, 0] (fun _ => rfl)

end BaseEventTheorems

/-! ## The event queue -/

section QueueTheorems

variable {P : Type}

theorem chainLength_pos (e : BaseEvent P) : 0 < chainLength e := by
  obtain ⟨s, p, t, d, n, c, x⟩ := e
  cases n <;> simp [chainLength]

theorem chainLength_set_timestamp (e : BaseEvent P) (t : Nat) :
    chainLength (e.set_timestamp t) = chainLength e := by
  obtain ⟨s, p, t0, d, n, c, x⟩ := e
  cases n <;> simp [chainLength, BaseEvent.set_timestamp]

theorem chainLength_next (e n : BaseEvent P) (h : e.next = some n) :
    chainLength e = chainLength n + 1 := by
  obtain ⟨s, p, t0, d, n0, c, x⟩ := e
  simp only [BaseEvent.next] at h
  subst h
  simp [chainLength]

theorem chainLength_next_none (e : BaseEvent P) (h : e.next = none) : chainLength e = 1 := by
  obtain ⟨s, p, t0, d, n0, c, x⟩ := e
  simp only [BaseEvent.next] at h
  subst h
  simp [chainLength]

theorem queueSize_append (xs ys : List (QueueEntry P)) :
    queueSize (xs ++ ys) = queueSize xs + queueSize ys := by
  induction xs with
  | nil => simp [queueSize]
  | cons x xs ih => simp [queueSize, ih, Nat.add_assoc]

theorem popMin_eq_none (q : List (QueueEntry P)) : popMin q = none ↔ q = [] := by
  cases q with
  | nil => simp [popMin]
  | cons x xs =>
    simp only [popMin]
    cases popMin xs with
    | none => simp
    | some r => by_cases h : r.1.before x = true <;> simp [h]

/-- The head of the heap together with the rest is a rearrangement of the heap. -/
theorem popMin_perm (q : List (QueueEntry P)) (m : QueueEntry P) (rest : List (QueueEntry P))
    (h : popMin q = some (m, rest)) : List.Perm q (m :: rest) := by
  induction q generalizing m rest with
  | nil => simp [popMin] at h
  | cons x xs ih =>
    simp only [popMin] at h
    cases hp : popMin xs with
    | none =>
      rw [hp] at h
      simp only [Option.some.injEq, Prod.mk.injEq] at h
      obtain ⟨rfl, rfl⟩ := h
      rw [(popMin_eq_none xs).1 hp]
    | some r =>
      obtain ⟨m0, rest0⟩ := r
      rw [hp] at h
      simp only at h
      by_cases hb : m0.before x = true
      · rw [if_pos hb] at h
        simp only [Option.some.injEq, Prod.mk.injEq] at h
        obtain ⟨rfl, rfl⟩ := h
        exact ((ih m0 rest0 hp).cons x).trans (List.Perm.swap m0 x rest0)
      · rw [if_neg hb] at h
        simp only [Option.some.injEq, Prod.mk.injEq] at h
        obtain ⟨rfl, rfl⟩ := h
        exact List.Perm.refl _

theorem QueueEntry.before_weight_le (a b : QueueEntry P) (h : a.before b = true) :
    eventWeight a.event ≤ eventWeight b.event := by
  unfold QueueEntry.before at h
  rw [Bool.or_eq_true, Bool.and_eq_true, Bool.not_eq_true', CompareEventWeightLessThan_iff] at h
  rcases h with h | ⟨h, _⟩
  · exact Nat.le_of_lt h
  · have h2 : ¬ CompareEventWeightGreaterThan a.event b.event = true := by simp [h]
    rw [CompareEventWeightGreaterThan_iff] at h2
    exact Nat.le_of_not_lt h2

theorem QueueEntry.not_before_weight_le (a b : QueueEntry P) (h : ¬ a.before b = true) :
    eventWeight b.event ≤ eventWeight a.event := by
  unfold QueueEntry.before at h
  rw [Bool.or_eq_true, CompareEventWeightLessThan_iff] at h
  exact Nat.le_of_not_lt (fun hlt => h (Or.inl hlt))

/-- The head of the heap has the least weight of the queue. -/
theorem popMin_weight_le (q : List (QueueEntry P)) (m : QueueEntry P)
    (rest : List (QueueEntry P)) (h : popMin q = some (m, rest)) :
    ∀ y ∈ q, eventWeight m.event ≤ eventWeight y.event := by
  induction q generalizing m rest with
  | nil => simp [popMin] at h
  | cons x xs ih =>
    simp only [popMin] at h
    cases hp : popMin xs with
    | none =>
      rw [hp] at h
      simp only [Option.some.injEq, Prod.mk.injEq] at h
      obtain ⟨rfl, rfl⟩ := h
      rw [(popMin_eq_none xs).1 hp]
      intro y hy
      rw [List.mem_singleton] at hy
      rw [hy]
    | some r =>
      obtain ⟨m0, rest0⟩ := r
      rw [hp] at h
      simp only at h
      have ih0 := ih m0 rest0 hp
      by_cases hb : m0.before x = true
      · rw [if_pos hb] at h
        simp only [Option.some.injEq, Prod.mk.injEq] at h
        obtain ⟨rfl, rfl⟩ := h
        intro y hy
        rcases List.mem_cons.1 hy with rfl | hy
        · exact QueueEntry.before_weight_le _ _ hb
        · exact ih0 y hy
      · rw [if_neg hb] at h
        simp only [Option.some.injEq, Prod.mk.injEq] at h
        obtain ⟨rfl, rfl⟩ := h
        intro y hy
        rcases List.mem_cons.1 hy with rfl | hy
        · exact Nat.le_refl _
        · exact Nat.le_trans (QueueEntry.not_before_weight_le _ _ hb) (ih0 y hy)

theorem queueSize_perm (q q2 : List (QueueEntry P)) (h : List.Perm q q2) :
    queueSize q = queueSize q2 := by
  induction h with
  | nil => rfl
  | cons x _ ih => simp [queueSize, ih]
  | swap x y l => simp only [queueSize]; omega
  | trans _ _ ih1 ih2 => exact ih1.trans ih2

theorem popDue_popMin (q : List (QueueEntry P)) (t : Nat) (m : QueueEntry P)
    (rest : List (QueueEntry P)) (h : popDue q t = some (m, rest)) :
    popMin q = some (m, rest) ∧ eventWeight m.event ≤ t := by
  unfold popDue at h
  cases hp : popMin q with
  | none => rw [hp] at h; simp at h
  | some r =>
    obtain ⟨m0, rest0⟩ := r
    rw [hp] at h
    simp only at h
    by_cases hd : eventWeight m0.event ≤ t
    · rw [if_pos hd] at h
      simp only [Option.some.injEq, Prod.mk.injEq] at h
      obtain ⟨rfl, rfl⟩ := h
      exact ⟨rfl, hd⟩
    · rw [if_neg hd] at h; simp at h

/-- When no event is due, every queued event has a weight above the current time. -/
theorem popDue_eq_none (q : List (QueueEntry P)) (t : Nat) (h : popDue q t = none) :
    ∀ y ∈ q, t < eventWeight y.event := by
  unfold popDue at h
  cases hp : popMin q with
  | none =>
    rw [(popMin_eq_none q).1 hp]
    intro y hy
    simp at hy
  | some r =>
    obtain ⟨m0, rest0⟩ := r
    rw [hp] at h
    simp only at h
    by_cases hd : eventWeight m0.event ≤ t
    · rw [if_pos hd] at h; simp at h
    · intro y hy
      exact Nat.lt_of_lt_of_le (Nat.lt_of_not_le hd) (popMin_weight_le q m0 rest0 hp y hy)

end QueueTheorems

/-! ## The steps of the dispatcher -/

section DispatcherSteps

open EventDispatcher

variable {P : Type}

theorem EventDispatcher.dispatch_trace (V : EventVTable P) (W : EventType)
    (d : EventDispatcher P) (seq : Option Nat) (e : BaseEvent P) :
    (dispatch V W d seq e).trace = d.trace ++ deliveryEffects V W d seq e := by
  unfold dispatch notify
  cases e.next <;> rfl

theorem EventDispatcher.dispatch_listeners (V : EventVTable P) (W : EventType)
    (d : EventDispatcher P) (seq : Option Nat) (e : BaseEvent P) :
    (dispatch V W d seq e).event_listeners = d.event_listeners := by
  unfold dispatch notify
  cases e.next <;> rfl

theorem EventDispatcher.dispatch_time (V : EventVTable P) (W : EventType)
    (d : EventDispatcher P) (seq : Option Nat) (e : BaseEvent P) :
    (dispatch V W d seq e).current_timestep = d.current_timestep := by
  unfold dispatch notify
  cases e.next <;> rfl

theorem EventDispatcher.dispatch_queue_none (V : EventVTable P) (W : EventType)
    (d : EventDispatcher P) (seq : Option Nat) (e : BaseEvent P) (h : e.next = none) :
    (dispatch V W d seq e).event_queue = d.event_queue ∧
      (dispatch V W d seq e).next_seq = d.next_seq := by
  unfold dispatch notify
  rw [h]
  exact ⟨rfl, rfl⟩

theorem EventDispatcher.dispatch_queue_some (V : EventVTable P) (W : EventType)
    (d : EventDispatcher P) (seq : Option Nat) (e n : BaseEvent P) (h : e.next = some n) :
    (dispatch V W d seq e).event_queue =
        d.event_queue ++ [{ seq := d.next_seq, event := n.set_timestamp d.current_timestep }] ∧
      (dispatch V W d seq e).next_seq = d.next_seq + 1 := by
  unfold dispatch notify
  rw [h]
  exact ⟨rfl, rfl⟩

/-- A property that every round of the loop of `tick` keeps holds when the loop ends. -/
theorem EventDispatcher.drain_induction (V : EventVTable P) (W : EventType)
    (Inv : EventDispatcher P → Prop)
    (hstep : ∀ (d : EventDispatcher P) (m : QueueEntry P) (rest : List (QueueEntry P)),
      Inv d → popDue d.event_queue d.current_timestep = some (m, rest) →
        Inv (dispatch V W { d with event_queue := rest } (some m.seq) m.event))
    (fuel : Nat) (d : EventDispatcher P) (h : Inv d) : Inv (drain V W fuel d) := by
  induction fuel generalizing d with
  | zero => exact h
  | succ fuel ih =>
    unfold drain
    cases hp : popDue d.event_queue d.current_timestep with
    | none => exact h
    | some r =>
      obtain ⟨m, rest⟩ := r
      exact ih _ (hstep d m rest h hp)

theorem EventDispatcher.drain_time (V : EventVTable P) (W : EventType) (fuel : Nat)
    (d : EventDispatcher P) : (drain V W fuel d).current_timestep = d.current_timestep :=
  drain_induction V W (fun x => x.current_timestep = d.current_timestep)
    (fun _ _ _ hx _ => (dispatch_time V W _ _ _).trans hx) fuel d rfl

theorem EventDispatcher.drain_listeners (V : EventVTable P) (W : EventType) (fuel : Nat)
    (d : EventDispatcher P) : (drain V W fuel d).event_listeners = d.event_listeners :=
  drain_induction V W (fun x => x.event_listeners = d.event_listeners)
    (fun _ _ _ hx _ => (dispatch_listeners V W _ _ _).trans hx) fuel d rfl

/-- One round of the loop takes one event out of the chains in the queue. -/
theorem EventDispatcher.step_queueSize (V : EventVTable P) (W : EventType)
    (d : EventDispatcher P) (m : QueueEntry P) (rest : List (QueueEntry P))
    (h : popMin d.event_queue = some (m, rest)) :
    queueSize (dispatch V W { d with event_queue := rest } (some m.seq) m.event).event_queue + 1
      = queueSize d.event_queue := by
  have hperm := queueSize_perm _ _ (popMin_perm _ _ _ h)
  rw [hperm]
  cases hn : m.event.next with
  | none =>
    rw [(dispatch_queue_none V W _ _ _ hn).1]
    simp only [queueSize]
    rw [chainLength_next_none _ hn]
    omega
  | some n =>
    rw [(dispatch_queue_some V W _ _ _ n hn).1, queueSize_append]
    simp only [queueSize]
    rw [chainLength_next _ n hn, chainLength_set_timestamp]
    omega

/-- The fuel that `tick` gives to its loop is enough: when the loop ends no event is due. -/
theorem EventDispatcher.drain_done (V : EventVTable P) (W : EventType) (fuel : Nat)
    (d : EventDispatcher P) (h : queueSize d.event_queue ≤ fuel) :
    popDue (drain V W fuel d).event_queue (drain V W fuel d).current_timestep = none := by
  induction fuel generalizing d with
  | zero =>
    have hq : d.event_queue = [] := by
      cases hq : d.event_queue with
      | nil => rfl
      | cons x xs =>
        rw [hq] at h
        simp only [queueSize] at h
        have := chainLength_pos x.event
        omega
    simp [drain, popDue, popMin, hq]
  | succ fuel ih =>
    unfold drain
    cases hp : popDue d.event_queue d.current_timestep with
    | none => exact hp
    | some r =>
      obtain ⟨m, rest⟩ := r
      have hs := step_queueSize V W d m rest (popDue_popMin _ _ _ _ hp).1
      exact ih _ (by omega)

/-- C4: a `tick` with a time before the current time returns false and leaves the dispatcher
as it is: the current time, the queue, the registry and the trace, so that no listener and no
callback is invoked. -/
theorem EventDispatcher.tick_past_fails (V : EventVTable P) (W : EventType)
    (d : EventDispatcher P) (t : Nat) (h : t < d.current_timestep) :
    (tick V W d t).2 = false ∧ (tick V W d t).1 = d ∧
      (tick V W d t).1.current_timestep = d.current_timestep ∧
      (tick V W d t).1.event_queue = d.event_queue ∧
      (tick V W d t).1.trace = d.trace := by
  unfold tick
  rw [if_pos h]
  exact ⟨rfl, rfl, rfl, rfl, rfl⟩

/-- The unit test of the time regression: a dispatcher created at time 10, with an event waiting, rejects
`tick(9)`. -/
theorem EventDispatcher.tick_past_fails_witness :
    (9 < (notify (create 10) (some (MockEvent.new 0 0))).current_timestep) ∧
    (tick (MockEvent.vtable ⟨7⟩) ⟨0⟩ (notify (create 10) (some (MockEvent.new 0 0))) 9).2 = false ∧
    (tick (MockEvent.vtable ⟨7⟩) ⟨0⟩ (notify (create 10) (some (MockEvent.new 0 0))) 9).1
      = notify (create 10) (some (MockEvent.new 0 0)) :=
  ⟨by decide,
   (tick_past_fails (MockEvent.vtable ⟨7⟩) ⟨0⟩ (notify (create 10) (some (MockEvent.new 0 0))) 9
      (by decide)).1,
   (tick_past_fails (MockEvent.vtable ⟨7⟩) ⟨0⟩ (notify (create 10) (some (MockEvent.new 0 0))) 9
      (by decide)).2.1⟩

end DispatcherSteps

/-! ## Observations on traces -/

section TraceTheorems

open EventDispatcher

variable {P : Type}

theorem invokedListeners_append (seq : Option Nat) (a b : List (Effect P)) :
    invokedListeners seq (a ++ b) = invokedListeners seq a ++ invokedListeners seq b := by
  induction a with
  | nil => rfl
  | cons x a ih =>
    cases x with
    | delivering s e => simpa [invokedListeners] using ih
    | listener l s e =>
      by_cases h : s = seq <;> simp [invokedListeners, h, ih]
    | callback c s e => simpa [invokedListeners] using ih

theorem deliveredEvents_append (seq : Option Nat) (a b : List (Effect P)) :
    deliveredEvents seq (a ++ b) = deliveredEvents seq a ++ deliveredEvents seq b := by
  induction a with
  | nil => rfl
  | cons x a ih =>
    cases x with
    | delivering s e =>
      by_cases h : s = seq <;> simp [deliveredEvents, h, ih]
    | listener l s e => simpa [deliveredEvents] using ih
    | callback c s e => simpa [deliveredEvents] using ih

theorem invokedListeners_listeners (seq : Option Nat) (e : BaseEvent P)
    (ls : List (EventListener P)) :
    invokedListeners seq (ls.map (fun l => Effect.listener l.first seq e))
      = ls.map EventListener.first := by
  induction ls with
  | nil => rfl
  | cons l ls ih => simp [invokedListeners, ih]

theorem invokedListeners_callbacks (seq : Option Nat) (e : BaseEvent P)
    (cs : List EventCallback) :
    invokedListeners seq (cs.map (fun cb => Effect.callback cb seq e)) = [] := by
  induction cs with
  | nil => rfl
  | cons c cs ih => simpa [invokedListeners] using ih

theorem deliveredEvents_listeners (seq : Option Nat) (e : BaseEvent P)
    (ls : List (EventListener P)) :
    deliveredEvents seq (ls.map (fun l => Effect.listener l.first seq e)) = [] := by
  induction ls with
  | nil => rfl
  | cons l ls ih => simpa [deliveredEvents] using ih

theorem deliveredEvents_callbacks (seq : Option Nat) (e : BaseEvent P)
    (cs : List EventCallback) :
    deliveredEvents seq (cs.map (fun cb => Effect.callback cb seq e)) = [] := by
  induction cs with
  | nil => rfl
  | cons c cs ih => simpa [deliveredEvents] using ih

/-- One delivery invokes the listeners of the type of the event and then the wildcard
listeners, each entry once and in the order of the registry. -/
theorem invokedListeners_deliveryEffects (V : EventVTable P) (W : EventType)
    (d : EventDispatcher P) (seq : Option Nat) (e : BaseEvent P) :
    invokedListeners seq (deliveryEffects V W d seq e) =
      (d.getListeners (V.event_type e)).map EventListener.first ++
        (d.getListeners W).map EventListener.first := by
  unfold deliveryEffects
  simp only [invokedListeners]
  rw [invokedListeners_append, invokedListeners_listeners, invokedListeners_callbacks]
  simp

theorem deliveredEvents_deliveryEffects (V : EventVTable P) (W : EventType)
    (d : EventDispatcher P) (seq : Option Nat) (e : BaseEvent P) :
    deliveredEvents seq (deliveryEffects V W d seq e) = [e] := by
  unfold deliveryEffects
  simp only [deliveredEvents]
  rw [deliveredEvents_append, deliveredEvents_listeners, deliveredEvents_callbacks]
  simp

theorem deliveryEffects_seq (V : EventVTable P) (W : EventType)
    (d : EventDispatcher P) (seq : Option Nat) (e : BaseEvent P) :
    ∀ x ∈ deliveryEffects V W d seq e, x.seq = seq ∧ x.event = e := by
  intro x hx
  unfold deliveryEffects at hx
  simp only [List.mem_cons, List.mem_append, List.mem_map] at hx
  rcases hx with rfl | ⟨l, _, rfl⟩ | ⟨c, _, rfl⟩ <;> exact ⟨rfl, rfl⟩

theorem effectsOf_cons (seq : Option Nat) (x : Effect P) (tr : List (Effect P)) :
    effectsOf seq (x :: tr) = if x.seq = seq then x :: effectsOf seq tr else effectsOf seq tr := by
  unfold effectsOf
  by_cases h : x.seq = seq <;> simp [List.filter, h]

theorem deliveredEvents_effectsOf (seq : Option Nat) (tr : List (Effect P)) :
    deliveredEvents seq (effectsOf seq tr) = deliveredEvents seq tr := by
  induction tr with
  | nil => rfl
  | cons x tr ih =>
    rw [effectsOf_cons]
    cases x with
    | delivering s e =>
      by_cases h : s = seq <;> simp [Effect.seq, deliveredEvents, h, ih]
    | listener l s e =>
      by_cases h : s = seq <;> simp [Effect.seq, deliveredEvents, h, ih]
    | callback c s e =>
      by_cases h : s = seq <;> simp [Effect.seq, deliveredEvents, h, ih]

theorem effectsOf_append (seq : Option Nat) (a b : List (Effect P)) :
    effectsOf seq (a ++ b) = effectsOf seq a ++ effectsOf seq b := by
  simp [effectsOf]

theorem effectsOf_eq_nil (seq : Option Nat) (tr : List (Effect P))
    (h : ∀ x ∈ tr, x.seq ≠ seq) : effectsOf seq tr = [] := by
  unfold effectsOf
  rw [List.filter_eq_nil_iff]
  intro x hx
  simpa using h x hx

theorem effectsOf_eq_self (seq : Option Nat) (tr : List (Effect P))
    (h : ∀ x ∈ tr, x.seq = seq) : effectsOf seq tr = tr := by
  unfold effectsOf
  rw [List.filter_eq_self]
  intro x hx
  simpa using h x hx

/-- C9: `deliver` of a non-null event returns true, whether or not a listener is registered
for the type of the event, and invokes, with the stamped event, every listener registered
for the type of the event in the order of registration and then every listener registered for
the wildcard type, each once and whatever the listeners return. -/
theorem EventDispatcher.deliver_invokes_listeners (V : EventVTable P) (W : EventType)
    (d : EventDispatcher P) (e : BaseEvent P) :
    (deliver V W d (some e)).2 = true ∧
    ∃ tr, (deliver V W d (some e)).1.trace = d.trace ++ tr ∧
      invokedListeners none tr =
        (d.getListeners (V.event_type (e.set_timestamp d.current_timestep))).map
            EventListener.first ++ (d.getListeners W).map EventListener.first ∧
      (∀ x ∈ tr, x.seq = none ∧ x.event = e.set_timestamp d.current_timestep) ∧
      deliveredEvents none tr = [e.set_timestamp d.current_timestep] := by
  refine ⟨rfl, deliveryEffects V W d none (e.set_timestamp d.current_timestep), ?_, ?_, ?_, ?_⟩
  · exact dispatch_trace V W d none _
  · exact invokedListeners_deliveryEffects V W d none _
  · exact deliveryEffects_seq V W d none _
  · exact deliveredEvents_deliveryEffects V W d none _

end TraceTheorems

/-! ## Order of delivery -/

section OrderTheorems

open EventDispatcher

variable {P : Type}

theorem EventDispatcher.dispatch_queue_mem (V : EventVTable P) (W : EventType)
    (d : EventDispatcher P) (seq : Option Nat) (e : BaseEvent P) (y : QueueEntry P)
    (h : y ∈ d.event_queue) : y ∈ (dispatch V W d seq e).event_queue := by
  cases hn : e.next with
  | none => rw [(dispatch_queue_none V W d seq e hn).1]; exact h
  | some n =>
    rw [(dispatch_queue_some V W d seq e n hn).1]
    exact List.mem_append_left _ h

theorem deliveryDone_append {q : QueueEntry P} {ls : List (EventListener P)}
    {a : List (Effect P)} (h : DeliveryDone q ls a) (b : List (Effect P)) :
    DeliveryDone q ls (a ++ b) :=
  ⟨List.mem_append_left b h.1, fun l hl => List.mem_append_left b (h.2 l hl)⟩

theorem deliveryDone_prepend {q : QueueEntry P} {ls : List (EventListener P)}
    {b : List (Effect P)} (h : DeliveryDone q ls b) (a : List (Effect P)) :
    DeliveryDone q ls (a ++ b) :=
  ⟨List.mem_append_right a h.1, fun l hl => List.mem_append_right a (h.2 l hl)⟩

theorem deliveryDone_deliveryEffects (V : EventVTable P) (W : EventType)
    (d : EventDispatcher P) (q : QueueEntry P) :
    DeliveryDone q (d.event_listeners (V.event_type q.event).ident ++ d.event_listeners W.ident)
      (deliveryEffects V W d (some q.seq) q.event) := by
  refine ⟨List.mem_cons_self _ _, fun l hl => ?_⟩
  unfold EventDispatcher.deliveryEffects
  refine List.mem_cons_of_mem _ (List.mem_append_left _ ?_)
  exact List.mem_map.2 ⟨l, hl, rfl⟩

theorem deliveredBefore_append {q1 q2 : QueueEntry P} {ls : List (EventListener P)}
    {tr : List (Effect P)} (hgood : DeliveredBefore q1 q2 ls tr) (new : List (Effect P))
    (h : (∀ x ∈ new, ¬ x.IsOf q2) ∨ DeliveryDone q1 ls tr) :
    DeliveredBefore q1 q2 ls (tr ++ new) := by
  intro pre x post heq hB
  rcases List.append_eq_append_iff.1 heq with ⟨a, hpre, hnew⟩ | ⟨c, htr, hc⟩
  · rcases h with h | h
    · exact absurd hB (h x (by rw [hnew]; simp))
    · rw [hpre]; exact deliveryDone_append h a
  · cases c with
    | nil =>
      simp only [List.nil_append] at hc
      rcases h with h | h
      · exact absurd hB (h x (by rw [← hc]; simp))
      · simpa [htr] using h
    | cons y c =>
      simp only [List.cons_append, List.cons.injEq] at hc
      obtain ⟨rfl, _⟩ := hc
      exact hgood pre x c htr hB

/-- One round of the loop of `tick` keeps the invariant of the order of delivery: the event
it takes out of the queue has the least weight, so it is not `q2` while `q1` is waiting. -/
theorem orderInv_step (V : EventVTable P) (W : EventType) (L : Nat → List (EventListener P))
    (T : List (Effect P)) (q1 q2 : QueueEntry P)
    (hlt : CompareEventWeightLessThan q1.event q2.event = true)
    (d : EventDispatcher P) (m : QueueEntry P) (rest : List (QueueEntry P))
    (hinv : OrderInv V W L T q1 q2 d) (hp : popMin d.event_queue = some (m, rest)) :
    OrderInv V W L T q1 q2
      (dispatch V W { d with event_queue := rest } (some m.seq) m.event) := by
  obtain ⟨hL, tr, htr, hgood, hcase⟩ := hinv
  have hnew : ∀ hq1 : q1 ∈ d.event_queue,
      ∀ x ∈ deliveryEffects V W d (some m.seq) m.event, ¬ x.IsOf q2 := by
    intro hq1 x hx hB
    have hxe := (deliveryEffects_seq V W d (some m.seq) m.event x hx).2
    have hle := popMin_weight_le _ _ _ hp q1 hq1
    rw [CompareEventWeightLessThan_iff] at hlt
    have : eventWeight m.event = eventWeight q2.event := by rw [← hxe, hB.2]
    omega
  refine ⟨(dispatch_listeners V W _ _ _).trans hL,
    tr ++ deliveryEffects V W d (some m.seq) m.event, ?_, ?_, ?_⟩
  · rw [dispatch_trace]
    show d.trace ++ _ = _
    rw [htr, List.append_assoc]
    rfl
  · refine deliveredBefore_append hgood _ ?_
    rcases hcase with ⟨hq1, _⟩ | hdone
    · exact Or.inl (hnew hq1)
    · exact Or.inr hdone
  · rcases hcase with ⟨hq1, hno⟩ | hdone
    · by_cases hm : q1 = m
      · right
        subst hm
        have hd := deliveryDone_deliveryEffects V W d q1
        rw [hL] at hd
        exact deliveryDone_prepend hd tr
      · left
        have hmem : q1 ∈ m :: rest := (popMin_perm _ _ _ hp).mem_iff.1 hq1
        have hrest : q1 ∈ rest := by
          rcases List.mem_cons.1 hmem with h | h
          · exact absurd h hm
          · exact h
        refine ⟨dispatch_queue_mem V W _ _ _ q1 hrest, ?_⟩
        intro x hx
        rcases List.mem_append.1 hx with h | h
        · exact hno x h
        · exact hnew hq1 x h
    · exact Or.inr (deliveryDone_append hdone _)

theorem orderInv_drain (V : EventVTable P) (W : EventType) (L : Nat → List (EventListener P))
    (T : List (Effect P)) (q1 q2 : QueueEntry P)
    (hlt : CompareEventWeightLessThan q1.event q2.event = true) (fuel : Nat)
    (d : EventDispatcher P) (hinv : OrderInv V W L T q1 q2 d) :
    OrderInv V W L T q1 q2 (drain V W fuel d) :=
  drain_induction V W (OrderInv V W L T q1 q2)
    (fun x m rest hx hp => orderInv_step V W L T q1 q2 hlt x m rest hx (popDue_popMin _ _ _ _ hp).1)
    fuel d hinv

theorem orderInv_ticks (V : EventVTable P) (W : EventType) (L : Nat → List (EventListener P))
    (T : List (Effect P)) (q1 q2 : QueueEntry P)
    (hlt : CompareEventWeightLessThan q1.event q2.event = true) (ts : List Nat)
    (d : EventDispatcher P) (hinv : OrderInv V W L T q1 q2 d) :
    OrderInv V W L T q1 q2 (ticks V W d ts) := by
  induction ts generalizing d with
  | nil => exact hinv
  | cons t ts ih =>
    apply ih
    unfold tick
    by_cases ht : t < d.current_timestep
    · rw [if_pos ht]; exact hinv
    · rw [if_neg ht]
      exact orderInv_drain V W L T q1 q2 hlt _ _ hinv

/-- C2, as amended: let two events `q1` and `q2` wait in the queue of a dispatcher, the weight
of `q1` being less than the weight of `q2`, where the weight of an event is its sum
`timestamp + delay + priority` reduced modulo `2 ^ 64`, the unsigned 64-bit value that the
comparators of the queue compare (the exact sum whenever that lies in `[0, 2 ^ 64)`). Then in
the trace of every sequence of `tick` calls every effect of `q2` (the start of its delivery, a
call of one of its listeners, its callback) comes after the start of the delivery of `q1` and
after the call of each listener of `q1`: no listener of `q2` is invoked before those of `q1`. -/
theorem EventDispatcher.ticks_deliver_in_weight_order (V : EventVTable P) (W : EventType)
    (d : EventDispatcher P) (q1 q2 : QueueEntry P) (ts : List Nat)
    (h1 : q1 ∈ d.event_queue) (_h2 : q2 ∈ d.event_queue)
    (hlt : exactWeight q1.event % (UINT64_MOD : Int) <
      exactWeight q2.event % (UINT64_MOD : Int)) :
    ∃ tr, (ticks V W d ts).trace = d.trace ++ tr ∧
      ∀ pre x post, tr = pre ++ x :: post → x.seq = some q2.seq → x.event = q2.event →
        Effect.delivering (some q1.seq) q1.event ∈ pre ∧
        ∀ l ∈ d.getListeners (V.event_type q1.event) ++ d.getListeners W,
          Effect.listener l.first (some q1.seq) q1.event ∈ pre := by
  have hcmp : CompareEventWeightLessThan q1.event q2.event = true := by
    rw [CompareEventWeightLessThan_iff, ← Int.ofNat_lt, eventWeight_eq_emod,
      eventWeight_eq_emod]
    exact hlt
  have hinit : OrderInv V W d.event_listeners d.trace q1 q2 d :=
    ⟨rfl, [], by simp, fun pre x post h => by simp at h, Or.inl ⟨h1, by simp⟩⟩
  obtain ⟨_, tr, htr, hgood, _⟩ :=
    orderInv_ticks V W d.event_listeners d.trace q1 q2 hcmp ts d hinit
  exact ⟨tr, htr, fun pre x post heq hs he => hgood pre x post heq ⟨hs, he⟩⟩

end OrderTheorems

/-! ## Every due event is delivered once -/

section OnceTheorems

open EventDispatcher

variable {P : Type}

theorem EventDispatcher.deliveryEffects_congr (V : EventVTable P) (W : EventType)
    (d d0 : EventDispatcher P) (seq : Option Nat) (e : BaseEvent P)
    (h : d.event_listeners = d0.event_listeners) :
    deliveryEffects V W d seq e = deliveryEffects V W d0 seq e := by
  unfold deliveryEffects getListeners
  rw [h]

theorem queue_push_seq (q : List (QueueEntry P)) (k : Nat) (e : BaseEvent P)
    (hnd : (q.map QueueEntry.seq).Nodup) (hlt : ∀ x ∈ q, x.seq < k) :
    ((q ++ [QueueEntry.mk k e]).map QueueEntry.seq).Nodup ∧
      ∀ x ∈ q ++ [QueueEntry.mk k e], x.seq < k + 1 := by
  refine ⟨?_, ?_⟩
  · rw [List.map_append, List.nodup_append]
    refine ⟨hnd, by simp, ?_⟩
    intro a ha hb
    simp only [List.map_cons, List.map_nil, List.mem_singleton] at hb
    obtain ⟨x, hx, rfl⟩ := List.mem_map.1 ha
    have := hlt x hx
    omega
  · intro x hx
    rcases List.mem_append.1 hx with h | h
    · exact Nat.lt_succ_of_lt (hlt x h)
    · simp only [List.mem_singleton] at h
      subst h
      exact Nat.lt_succ_self _

/-- A fresh dispatcher is well formed. -/
theorem EventDispatcher.wellFormed_create (t : Nat) :
    (EventDispatcher.create t : EventDispatcher P).WellFormed := by
  simp [WellFormed, EventDispatcher.create]

/-- The operation `notify` keeps a dispatcher well formed. -/
theorem EventDispatcher.wellFormed_notify (d : EventDispatcher P) (hwf : d.WellFormed)
    (event : IEventPtr P) : (notify d event).WellFormed := by
  cases event with
  | none => exact hwf
  | some e => exact queue_push_seq d.event_queue d.next_seq _ hwf.1 hwf.2

theorem EventDispatcher.wellFormed_dispatch (V : EventVTable P) (W : EventType)
    (d : EventDispatcher P) (hwf : d.WellFormed) (seq : Option Nat) (e : BaseEvent P) :
    (dispatch V W d seq e).WellFormed := by
  unfold EventDispatcher.dispatch
  exact wellFormed_notify { d with trace := d.trace ++ deliveryEffects V W d seq e } hwf _

theorem EventDispatcher.wellFormed_pop (d : EventDispatcher P) (hwf : d.WellFormed)
    (m : QueueEntry P) (rest : List (QueueEntry P))
    (hp : popMin d.event_queue = some (m, rest)) :
    (m.seq ∉ rest.map QueueEntry.seq) ∧
      ({ d with event_queue := rest } : EventDispatcher P).WellFormed := by
  have hperm := popMin_perm _ _ _ hp
  have hnd : ((m :: rest).map QueueEntry.seq).Nodup :=
    (hperm.map QueueEntry.seq).nodup_iff.1 hwf.1
  rw [List.map_cons, List.nodup_cons] at hnd
  refine ⟨hnd.1, hnd.2, fun x hx => hwf.2 x ?_⟩
  exact hperm.mem_iff.2 (List.mem_cons_of_mem _ hx)

theorem EventDispatcher.wellFormed_drain (V : EventVTable P) (W : EventType) (fuel : Nat)
    (d : EventDispatcher P) (hwf : d.WellFormed) : (drain V W fuel d).WellFormed :=
  drain_induction V W WellFormed
    (fun x m rest hx hp =>
      wellFormed_dispatch V W _ (wellFormed_pop x hx m rest (popDue_popMin _ _ _ _ hp).1).2 _ _)
    fuel d hwf

/-- The operation `tick` keeps a dispatcher well formed. -/
theorem EventDispatcher.wellFormed_tick (V : EventVTable P) (W : EventType)
    (d : EventDispatcher P) (hwf : d.WellFormed) (t : Nat) : (tick V W d t).1.WellFormed := by
  unfold EventDispatcher.tick
  by_cases ht : t < d.current_timestep
  · rw [if_pos ht]; exact hwf
  · rw [if_neg ht]
    exact wellFormed_drain V W _ _ hwf

theorem EventDispatcher.dispatch_next_seq_le (V : EventVTable P) (W : EventType)
    (d : EventDispatcher P) (seq : Option Nat) (e : BaseEvent P) :
    d.next_seq ≤ (dispatch V W d seq e).next_seq := by
  cases hn : e.next with
  | none => rw [(dispatch_queue_none V W d seq e hn).2]
  | some n => rw [(dispatch_queue_some V W d seq e n hn).2]; exact Nat.le_succ _

/-- An entry of the queue after a round of the loop was in the queue before the round or
carries the sequence number given out in the round. -/
theorem EventDispatcher.dispatch_queue_cases (V : EventVTable P) (W : EventType)
    (d : EventDispatcher P) (seq : Option Nat) (e : BaseEvent P) (y : QueueEntry P)
    (hy : y ∈ (dispatch V W d seq e).event_queue) :
    y ∈ d.event_queue ∨ y.seq = d.next_seq := by
  cases hn : e.next with
  | none =>
    rw [(dispatch_queue_none V W d seq e hn).1] at hy
    exact Or.inl hy
  | some n =>
    rw [(dispatch_queue_some V W d seq e n hn).1] at hy
    rcases List.mem_append.1 hy with h | h
    · exact Or.inl h
    · simp only [List.mem_singleton] at h
      exact Or.inr (by rw [h])

theorem tracked_step (V : EventVTable P) (W : EventType) (d0 : EventDispatcher P)
    (q : QueueEntry P) (d : EventDispatcher P) (m : QueueEntry P) (rest : List (QueueEntry P))
    (h : Tracked d0 q d) (hp : popMin d.event_queue = some (m, rest)) :
    Tracked d0 q (dispatch V W { d with event_queue := rest } (some m.seq) m.event) :=
  ⟨wellFormed_dispatch V W _ (wellFormed_pop d h.1 m rest hp).2 _ _,
    Nat.lt_of_lt_of_le h.2.1
      (dispatch_next_seq_le V W { d with event_queue := rest } (some m.seq) m.event),
    (dispatch_listeners V W _ _ _).trans h.2.2⟩

/-- In a well-formed queue an entry is determined by its sequence number. -/
theorem EventDispatcher.wellFormed_eq_of_seq (d : EventDispatcher P) (hwf : d.WellFormed)
    (x y : QueueEntry P) (hx : x ∈ d.event_queue) (hy : y ∈ d.event_queue)
    (h : x.seq = y.seq) : x = y :=
  List.inj_on_of_nodup_map hwf.1 hx hy h

theorem effectsOf_deliveryEffects_ne (V : EventVTable P) (W : EventType)
    (d : EventDispatcher P) (s s0 : Nat) (e : BaseEvent P) (h : s ≠ s0) :
    effectsOf (some s0) (deliveryEffects V W d (some s) e) = [] := by
  apply effectsOf_eq_nil
  intro x hx hs
  rw [(deliveryEffects_seq V W d (some s) e x hx).1] at hs
  exact h (Option.some.inj hs)

theorem effectsOf_deliveryEffects_self (V : EventVTable P) (W : EventType)
    (d : EventDispatcher P) (seq : Option Nat) (e : BaseEvent P) :
    effectsOf seq (deliveryEffects V W d seq e) = deliveryEffects V W d seq e :=
  effectsOf_eq_self _ _ (fun x hx => (deliveryEffects_seq V W d seq e x hx).1)

/-- A round of the loop that takes another entry out of the queue leaves `q` waiting. -/
theorem waiting_step_other (V : EventVTable P) (W : EventType) (T : List (Effect P))
    (q : QueueEntry P) (d : EventDispatcher P) (m : QueueEntry P) (rest : List (QueueEntry P))
    (h : Waiting T q d) (hp : popMin d.event_queue = some (m, rest)) (hne : m.seq ≠ q.seq) :
    Waiting T q (dispatch V W { d with event_queue := rest } (some m.seq) m.event) := by
  obtain ⟨tr, htr, hq, heff⟩ := h
  refine ⟨tr ++ deliveryEffects V W d (some m.seq) m.event, ?_, ?_, ?_⟩
  · rw [dispatch_trace]
    show d.trace ++ _ = _
    rw [htr, List.append_assoc]
    rfl
  · have hmem : q ∈ m :: rest := (popMin_perm _ _ _ hp).mem_iff.1 hq
    rcases List.mem_cons.1 hmem with h | h
    · exact absurd (by rw [h]) hne
    · exact dispatch_queue_mem V W _ _ _ q h
  · rw [effectsOf_append, heff, effectsOf_deliveryEffects_ne V W d _ _ _ hne]
    rfl

/-- A round of the loop that takes `q` out of the queue delivers it once. -/
theorem waiting_step_self (V : EventVTable P) (W : EventType) (d0 : EventDispatcher P)
    (T : List (Effect P)) (q : QueueEntry P) (d : EventDispatcher P) (m : QueueEntry P)
    (rest : List (QueueEntry P)) (ht : Tracked d0 q d) (h : Waiting T q d)
    (hp : popMin d.event_queue = some (m, rest)) (heq : m.seq = q.seq) :
    DeliveredOnce V W d0 T q
      (dispatch V W { d with event_queue := rest } (some m.seq) m.event) := by
  obtain ⟨tr, htr, hq, heff⟩ := h
  have hm : m ∈ d.event_queue := (popMin_perm _ _ _ hp).mem_iff.2 (List.mem_cons_self _ _)
  have hmq : m = q := wellFormed_eq_of_seq d ht.1 m q hm hq heq
  subst hmq
  refine ⟨tr ++ deliveryEffects V W d (some m.seq) m.event, ?_, ?_, ?_⟩
  · rw [dispatch_trace]
    show d.trace ++ _ = _
    rw [htr, List.append_assoc]
    rfl
  · intro y hy
    rcases dispatch_queue_cases V W _ _ _ y hy with h | h
    · intro hs
      exact (wellFormed_pop d ht.1 m rest hp).1 (hs ▸ List.mem_map_of_mem _ h)
    · have : y.seq = d.next_seq := h
      have := ht.2.1
      omega
  · rw [effectsOf_append, heff, effectsOf_deliveryEffects_self,
      deliveryEffects_congr V W d d0 _ _ ht.2.2]
    rfl

/-- Once `q` has been delivered no round of the loop adds an effect of it. -/
theorem deliveredOnce_step (V : EventVTable P) (W : EventType) (d0 : EventDispatcher P)
    (T : List (Effect P)) (q : QueueEntry P) (d : EventDispatcher P) (m : QueueEntry P)
    (rest : List (QueueEntry P)) (ht : Tracked d0 q d) (h : DeliveredOnce V W d0 T q d)
    (hp : popMin d.event_queue = some (m, rest)) :
    DeliveredOnce V W d0 T q
      (dispatch V W { d with event_queue := rest } (some m.seq) m.event) := by
  obtain ⟨tr, htr, hq, heff⟩ := h
  have hperm := popMin_perm _ _ _ hp
  have hm : m ∈ d.event_queue := hperm.mem_iff.2 (List.mem_cons_self _ _)
  refine ⟨tr ++ deliveryEffects V W d (some m.seq) m.event, ?_, ?_, ?_⟩
  · rw [dispatch_trace]
    show d.trace ++ _ = _
    rw [htr, List.append_assoc]
    rfl
  · intro y hy
    rcases dispatch_queue_cases V W _ _ _ y hy with h | h
    · exact hq y (hperm.mem_iff.2 (List.mem_cons_of_mem _ h))
    · have : y.seq = d.next_seq := h
      have := ht.2.1
      omega
  · rw [effectsOf_append, heff, effectsOf_deliveryEffects_ne V W d _ _ _ (hq m hm)]
    simp

end OnceTheorems

section TickTheorems

open EventDispatcher

variable {P : Type}

/-- The loop of `tick` delivers an entry at most once. -/
theorem EventDispatcher.drain_once (V : EventVTable P) (W : EventType)
    (d0 : EventDispatcher P) (T : List (Effect P)) (q : QueueEntry P) (fuel : Nat)
    (d : EventDispatcher P) (ht : Tracked d0 q d)
    (hw : Waiting T q d ∨ DeliveredOnce V W d0 T q d) :
    Waiting T q (drain V W fuel d) ∨ DeliveredOnce V W d0 T q (drain V W fuel d) := by
  have h := drain_induction V W
    (fun x => Tracked d0 q x ∧ (Waiting T q x ∨ DeliveredOnce V W d0 T q x))
    (fun x m rest hx hp => by
      obtain ⟨hxt, hxw⟩ := hx
      obtain ⟨hpm, _⟩ := popDue_popMin _ _ _ _ hp
      refine ⟨tracked_step V W d0 q x m rest hxt hpm, ?_⟩
      rcases hxw with hxw | hxd
      · by_cases hs : m.seq = q.seq
        · exact Or.inr (waiting_step_self V W d0 T q x m rest hxt hxw hpm hs)
        · exact Or.inl (waiting_step_other V W T q x m rest hxw hpm hs)
      · exact Or.inr (deliveredOnce_step V W d0 T q x m rest hxt hxd hpm))
    fuel d ⟨ht, hw⟩
  exact h.2

end TickTheorems

section TickTotal

open EventDispatcher

variable {P : Type}

/-- An accepted `tick` runs its loop to the end: it returns true, the current time is the new
time and no event of the queue it leaves is due. -/
theorem EventDispatcher.tick_runs_to_completion (V : EventVTable P) (W : EventType)
    (d : EventDispatcher P) (t : Nat) (ht : d.current_timestep ≤ t) :
    (tick V W d t).2 = true ∧ (tick V W d t).1.current_timestep = t ∧
      ∀ y ∈ (tick V W d t).1.event_queue, t < eventWeight y.event := by
  unfold EventDispatcher.tick
  rw [if_neg (Nat.not_lt.2 ht)]
  refine ⟨rfl, drain_time V W _ _, ?_⟩
  have hdone := drain_done V W (queueSize d.event_queue)
    ({ d with current_timestep := t } : EventDispatcher P) (Nat.le_refl _)
  rw [drain_time] at hdone
  exact popDue_eq_none _ _ hdone

end TickTotal

section ScenarioTheorems

open EventDispatcher

variable {P : Type}

end ScenarioTheorems

section ScenarioWitnesses

open EventDispatcher

theorem Fixture.dispatcher_wellFormed (t : Nat) : (Fixture.dispatcher t).WellFormed := by
  simp [WellFormed, Fixture.dispatcher]

/-- Two delayed events: an event of delay 5 is notified before an event of delay 3; in the
trace of `tick(1); tick(10)` every effect of the first comes after the delivery of the
second. -/
theorem EventDispatcher.ticks_deliver_in_weight_order_witness :
    ∃ tr, (ticks Fixture.vtable Fixture.kWildCardHashString
        (notify (notify (Fixture.dispatcher 0) (some (MockEvent.new 0 5)))
          (some (MockEvent.new 0 3))) [1, 10]).trace =
        (notify (notify (Fixture.dispatcher 0) (some (MockEvent.new 0 5)))
          (some (MockEvent.new 0 3))).trace ++ tr ∧
      ∀ pre x post, tr = pre ++ x :: post → x.seq = some 0 →
        x.event = (MockEvent.new 0 5).set_timestamp 0 →
        Effect.delivering (some 1) ((MockEvent.new 0 3).set_timestamp 0) ∈ pre ∧
        ∀ l ∈ (notify (notify (Fixture.dispatcher 0) (some (MockEvent.new 0 5)))
            (some (MockEvent.new 0 3))).getListeners
              (Fixture.vtable.event_type ((MockEvent.new 0 3).set_timestamp 0)) ++
            (notify (notify (Fixture.dispatcher 0) (some (MockEvent.new 0 5)))
              (some (MockEvent.new 0 3))).getListeners Fixture.kWildCardHashString,
          Effect.listener l.first (some 1) ((MockEvent.new 0 3).set_timestamp 0) ∈ pre :=
  ticks_deliver_in_weight_order Fixture.vtable Fixture.kWildCardHashString
    (notify (notify (Fixture.dispatcher 0) (some (MockEvent.new 0 5)))
      (some (MockEvent.new 0 3)))
    (QueueEntry.mk 1 ((MockEvent.new 0 3).set_timestamp 0))
    (QueueEntry.mk 0 ((MockEvent.new 0 5).set_timestamp 0)) [1, 10]
    (List.Mem.tail _ (List.Mem.head _)) (List.Mem.head _) (by decide)

/-- The order of the exact sums is not the order of delivery: at time 0 an event of priority
`-1` is notified before an event of delay 5; all fields hold values of their types and the
exact sums are `-1 < 5`. The 64-bit weight of the first event is `2 ^ 64 - 1`, so `tick(10)`
delivers the second event, whose listener is invoked, and nothing of the first event, which
stays in the queue. -/
theorem EventDispatcher.exact_weight_order_counterexample :
    (notify (notify (Fixture.dispatcher 0) (some ((MockEvent.new 0 0).set_priority (-1))))
        (some (MockEvent.new 0 5))).event_queue =
      [QueueEntry.mk 0 (((MockEvent.new 0 0).set_priority (-1)).set_timestamp 0),
       QueueEntry.mk 1 ((MockEvent.new 0 5).set_timestamp 0)] ∧
    (((MockEvent.new 0 0).set_priority (-1)).set_timestamp 0).FieldsInRange ∧
    ((MockEvent.new 0 5).set_timestamp 0).FieldsInRange ∧
    exactWeight (((MockEvent.new 0 0).set_priority (-1)).set_timestamp 0) <
      exactWeight ((MockEvent.new 0 5).set_timestamp 0) ∧
    invokedListeners (some 1) (ticks Fixture.vtable Fixture.kWildCardHashString
      (notify (notify (Fixture.dispatcher 0) (some ((MockEvent.new 0 0).set_priority (-1))))
        (some (MockEvent.new 0 5))) [10]).trace = [11] ∧
    invokedListeners (some 0) (ticks Fixture.vtable Fixture.kWildCardHashString
      (notify (notify (Fixture.dispatcher 0) (some ((MockEvent.new 0 0).set_priority (-1))))
        (some (MockEvent.new 0 5))) [10]).trace = [] ∧
    (deliveredEvents (some 0) (ticks Fixture.vtable Fixture.kWildCardHashString
      (notify (notify (Fixture.dispatcher 0) (some ((MockEvent.new 0 0).set_priority (-1))))
        (some (MockEvent.new 0 5))) [10]).trace).length = 0 ∧
    ((ticks Fixture.vtable Fixture.kWildCardHashString
      (notify (notify (Fixture.dispatcher 0) (some ((MockEvent.new 0 0).set_priority (-1))))
        (some (MockEvent.new 0 5))) [10]).event_queue.map QueueEntry.seq) = [0] := by
  refine ⟨rfl, ?_, ?_, ?_, ?_, ?_, ?_, ?_⟩ <;> decide

end ScenarioWitnesses

section ChainTheorems

open EventDispatcher

variable {P : Type}

theorem BaseEvent.consume_of_hook (V : EventVTable P) (e : BaseEvent P) (handled : Bool)
    (cb : EventCallback) (hcb : e.callback_ = some cb) (hcons : V.onConsume e handled = true) :
    e.consume V handled = [cb] := by
  unfold BaseEvent.consume
  rw [hcons, hcb]
  rfl

end ChainTheorems

/-! ## Timestamps -/

section StampTheorems

open EventDispatcher

variable {P : Type}

/-- A `tick` leaves a queued event waiting, untouched, or delivers it once. -/
theorem EventDispatcher.tick_waiting_or_delivered (V : EventVTable P) (W : EventType)
    (d : EventDispatcher P) (q : QueueEntry P) (t : Nat) (hwf : d.WellFormed)
    (hq : q ∈ d.event_queue) :
    Waiting d.trace q (tick V W d t).1 ∨ DeliveredOnce V W d d.trace q (tick V W d t).1 := by
  unfold EventDispatcher.tick
  by_cases ht : t < d.current_timestep
  · rw [if_pos ht]
    exact Or.inl ⟨[], by simp, hq, rfl⟩
  · rw [if_neg ht]
    exact drain_once V W d d.trace q _ _ ⟨hwf, hwf.2 q hq, rfl⟩
      (Or.inl ⟨[], by simp, hq, rfl⟩)

theorem mem_effectsOf (seq : Option Nat) (tr : List (Effect P)) (x : Effect P)
    (hx : x ∈ tr) (hs : x.seq = seq) : x ∈ effectsOf seq tr := by
  unfold effectsOf
  exact List.mem_filter.2 ⟨hx, by simpa using hs⟩

/-- C11: in a dispatcher whose current time is `d.current_timestep`, `notify(e)` puts `e`
into the queue with its timestamp set to the current time, and `deliver(e)` delivers `e` with
its timestamp set to the current time. A later `tick(t)` does not change the timestamp:
whether `e` is still waiting or has been drained, the event in the queue and the event of
every effect recorded for it carry the time of `notify`, not `t`. -/
theorem EventDispatcher.notify_deliver_set_timestamp (V : EventVTable P) (W : EventType)
    (d : EventDispatcher P) (e : BaseEvent P) (t : Nat) (hwf : d.WellFormed) :
    ((e.set_timestamp d.current_timestep).timestamp = d.current_timestep ∧
      QueueEntry.mk d.next_seq (e.set_timestamp d.current_timestep) ∈
        (notify d (some e)).event_queue ∧
      ∀ y ∈ (notify d (some e)).event_queue, y.seq = d.next_seq →
        y.event.timestamp = d.current_timestep) ∧
    (∃ tr, (deliver V W d (some e)).1.trace = d.trace ++ tr ∧
      deliveredEvents none tr = [e.set_timestamp d.current_timestep] ∧
      ∀ x ∈ tr, x.event.timestamp = d.current_timestep) ∧
    ((∀ y ∈ (tick V W (notify d (some e)) t).1.event_queue, y.seq = d.next_seq →
        y.event.timestamp = d.current_timestep) ∧
      ∃ tr, (tick V W (notify d (some e)) t).1.trace = d.trace ++ tr ∧
        (∀ x ∈ tr, x.seq = some d.next_seq → x.event.timestamp = d.current_timestep) ∧
        ∀ ev ∈ deliveredEvents (some d.next_seq) tr, ev.timestamp = d.current_timestep) := by
  have hwf1 : (notify d (some e)).WellFormed := wellFormed_notify d hwf (some e)
  have hmem : QueueEntry.mk d.next_seq (e.set_timestamp d.current_timestep) ∈
      (notify d (some e)).event_queue := by
    simp [notify]
  refine ⟨⟨rfl, hmem, ?_⟩, ?_, ?_⟩
  · intro y hy hs
    have := wellFormed_eq_of_seq _ hwf1 y _ hy hmem hs
    rw [this]
    rfl
  · refine ⟨deliveryEffects V W d none (e.set_timestamp d.current_timestep),
      dispatch_trace V W d none _, deliveredEvents_deliveryEffects V W d none _, ?_⟩
    intro x hx
    rw [(deliveryEffects_seq V W d none _ x hx).2]
    rfl
  · rcases tick_waiting_or_delivered V W (notify d (some e)) _ t hwf1 hmem with h | h
    · obtain ⟨tr, htr, hq, heff⟩ := h
      have hwf2 := wellFormed_tick V W _ hwf1 t
      refine ⟨?_, tr, htr, ?_, ?_⟩
      · intro y hy hs
        have := wellFormed_eq_of_seq _ hwf2 y _ hy hq hs
        rw [this]
        rfl
      · intro x hx hs
        have hin := mem_effectsOf _ tr x hx hs
        rw [show effectsOf (some d.next_seq) tr = [] from heff] at hin
        simp at hin
      · intro ev hev
        rw [← deliveredEvents_effectsOf,
          show effectsOf (some d.next_seq) tr = [] from heff] at hev
        simp [deliveredEvents] at hev
    · obtain ⟨tr, htr, hq, heff⟩ := h
      have heff2 : effectsOf (some d.next_seq) tr =
          deliveryEffects V W (notify d (some e)) (some d.next_seq)
            (e.set_timestamp d.current_timestep) := heff
      refine ⟨?_, tr, htr, ?_, ?_⟩
      · intro y hy hs
        exact absurd hs (hq y hy)
      · intro x hx hs
        have hin := mem_effectsOf _ tr x hx hs
        rw [heff2] at hin
        rw [(deliveryEffects_seq V W _ _ _ x hin).2]
        rfl
      · intro ev hev
        rw [← deliveredEvents_effectsOf, heff2, deliveredEvents_deliveryEffects] at hev
        rw [List.mem_singleton.1 hev]
        rfl

/-- The unit tests of the timestamp: a dispatcher created at time 100 stamps a notified event
and a delivered event with 100; after `notify` and `tick(150)` the event was delivered with
timestamp 100. -/
theorem EventDispatcher.notify_deliver_set_timestamp_witness :
    (∀ y ∈ (notify (Fixture.dispatcher 100) (some (MockEvent.new 0 0))).event_queue,
      y.seq = (Fixture.dispatcher 100).next_seq →
        y.event.timestamp = (Fixture.dispatcher 100).current_timestep) ∧
    (deliveredEvents (some 0) (tick Fixture.vtable Fixture.kWildCardHashString
      (notify (Fixture.dispatcher 100) (some (MockEvent.new 0 0))) 150).1.trace).map
        BaseEvent.timestamp = [100] ∧
    (deliveredEvents none (deliver Fixture.vtable Fixture.kWildCardHashString
      (Fixture.dispatcher 100) (some (MockEvent.new 0 0))).1.trace).map
        BaseEvent.timestamp = [100] :=
  ⟨(notify_deliver_set_timestamp Fixture.vtable Fixture.kWildCardHashString
      (Fixture.dispatcher 100) (MockEvent.new 0 0) 150 (Fixture.dispatcher_wellFormed 100)).1.2.2,
    by decide, by decide⟩

end StampTheorems

/-! ## Order of delivery for equal weights -/

section FifoTheorems

open EventDispatcher

variable {P : Type}

theorem QueueEntry.before_iff (a b : QueueEntry P) :
    a.before b = true ↔ eventWeight a.event < eventWeight b.event ∨
      (eventWeight a.event = eventWeight b.event ∧ a.seq < b.seq) := by
  unfold QueueEntry.before
  rw [Bool.or_eq_true, Bool.and_eq_true, Bool.not_eq_true', CompareEventWeightLessThan_iff,
    decide_eq_true_iff]
  have hgt : CompareEventWeightGreaterThan a.event b.event = false ↔
      ¬ eventWeight b.event < eventWeight a.event := by
    rw [← CompareEventWeightGreaterThan_iff]
    simp
  rw [hgt]
  omega

/-- Among the events of the least weight the head of the heap has the least sequence
number. -/
theorem popMin_seq_le (q : List (QueueEntry P)) (m : QueueEntry P)
    (rest : List (QueueEntry P)) (h : popMin q = some (m, rest)) :
    ∀ y ∈ q, eventWeight y.event = eventWeight m.event → m.seq ≤ y.seq := by
  induction q generalizing m rest with
  | nil => simp [popMin] at h
  | cons x xs ih =>
    simp only [popMin] at h
    cases hp : popMin xs with
    | none =>
      rw [hp] at h
      simp only [Option.some.injEq, Prod.mk.injEq] at h
      obtain ⟨rfl, rfl⟩ := h
      rw [(popMin_eq_none xs).1 hp]
      intro y hy _
      rw [List.mem_singleton] at hy
      rw [hy]
    | some r =>
      obtain ⟨m0, rest0⟩ := r
      rw [hp] at h
      simp only at h
      have ih0 := ih m0 rest0 hp
      have hle := popMin_weight_le xs m0 rest0 hp
      by_cases hb : m0.before x = true
      · rw [if_pos hb] at h
        simp only [Option.some.injEq, Prod.mk.injEq] at h
        obtain ⟨rfl, rfl⟩ := h
        intro y hy hw
        rcases List.mem_cons.1 hy with rfl | hy
        · rw [QueueEntry.before_iff] at hb
          omega
        · exact ih0 y hy hw
      · rw [if_neg hb] at h
        simp only [Option.some.injEq, Prod.mk.injEq] at h
        obtain ⟨rfl, rfl⟩ := h
        intro y hy hw
        rcases List.mem_cons.1 hy with rfl | hy
        · exact Nat.le_refl _
        · rw [QueueEntry.before_iff] at hb
          have h1 := hle y hy
          have h2 := ih0 y hy
          omega

/-- One round of the loop of `tick` keeps the invariant of the order of delivery whenever the
entry it takes out of the queue is not `q2` while `q1` is waiting. -/
theorem orderInv_round (V : EventVTable P) (W : EventType) (L : Nat → List (EventListener P))
    (T : List (Effect P)) (q1 q2 : QueueEntry P)
    (d : EventDispatcher P) (m : QueueEntry P) (rest : List (QueueEntry P))
    (hsep : q1 ∈ d.event_queue → ¬ (m.seq = q2.seq ∧ m.event = q2.event))
    (hinv : OrderInv V W L T q1 q2 d) (hp : popMin d.event_queue = some (m, rest)) :
    OrderInv V W L T q1 q2
      (dispatch V W { d with event_queue := rest } (some m.seq) m.event) := by
  obtain ⟨hL, tr, htr, hgood, hcase⟩ := hinv
  have hnew : ∀ hq1 : q1 ∈ d.event_queue,
      ∀ x ∈ deliveryEffects V W d (some m.seq) m.event, ¬ x.IsOf q2 := by
    intro hq1 x hx hB
    have hxe := deliveryEffects_seq V W d (some m.seq) m.event x hx
    refine hsep hq1 ⟨?_, ?_⟩
    · have := hB.1
      rw [hxe.1] at this
      exact Option.some.inj this
    · rw [← hxe.2, hB.2]
  refine ⟨(dispatch_listeners V W _ _ _).trans hL,
    tr ++ deliveryEffects V W d (some m.seq) m.event, ?_, ?_, ?_⟩
  · rw [dispatch_trace]
    show d.trace ++ _ = _
    rw [htr, List.append_assoc]
    rfl
  · refine deliveredBefore_append hgood _ ?_
    rcases hcase with ⟨hq1, _⟩ | hdone
    · exact Or.inl (hnew hq1)
    · exact Or.inr hdone
  · rcases hcase with ⟨hq1, hno⟩ | hdone
    · by_cases hm : q1 = m
      · right
        subst hm
        have hd := deliveryDone_deliveryEffects V W d q1
        rw [hL] at hd
        exact deliveryDone_prepend hd tr
      · left
        have hmem : q1 ∈ m :: rest := (popMin_perm _ _ _ hp).mem_iff.1 hq1
        have hrest : q1 ∈ rest := by
          rcases List.mem_cons.1 hmem with h | h
          · exact absurd h hm
          · exact h
        refine ⟨dispatch_queue_mem V W _ _ _ q1 hrest, ?_⟩
        intro x hx
        rcases List.mem_append.1 hx with h | h
        · exact hno x h
        · exact hnew hq1 x h
    · exact Or.inr (deliveryDone_append hdone _)

theorem orderInv_ticks_fifo (V : EventVTable P) (W : EventType)
    (L : Nat → List (EventListener P)) (T : List (Effect P)) (q1 q2 : QueueEntry P)
    (hw : eventWeight q1.event = eventWeight q2.event) (hseq : q1.seq < q2.seq)
    (ts : List Nat) (d : EventDispatcher P) (hinv : OrderInv V W L T q1 q2 d) :
    OrderInv V W L T q1 q2 (ticks V W d ts) := by
  have hround : ∀ (x : EventDispatcher P) (m : QueueEntry P) (rest : List (QueueEntry P)),
      OrderInv V W L T q1 q2 x → popDue x.event_queue x.current_timestep = some (m, rest) →
        OrderInv V W L T q1 q2
          (dispatch V W { x with event_queue := rest } (some m.seq) m.event) := by
    intro x m rest hx hp
    have hpm := (popDue_popMin _ _ _ _ hp).1
    refine orderInv_round V W L T q1 q2 x m rest ?_ hx hpm
    intro hq1 hm
    have hle := popMin_seq_le _ _ _ hpm q1 hq1 (by rw [hw, hm.2])
    omega
  induction ts generalizing d with
  | nil => exact hinv
  | cons t ts ih =>
    apply ih
    unfold tick
    by_cases ht : t < d.current_timestep
    · rw [if_pos ht]; exact hinv
    · rw [if_neg ht]
      exact drain_induction V W (OrderInv V W L T q1 q2) hround _ _ hinv

/-- C12: let two events `q1` and `q2` of equal weight wait in the queue of a dispatcher (equal
as exact sums `timestamp + delay + priority`, or equal for the comparators, neither weight
comparing less than the other), `q1` having been enqueued before `q2`, that is with the
smaller insertion sequence number. Then in the trace of every sequence of `tick` calls every
effect of `q2` comes after the start of the delivery of `q1` and after the call of each
listener of `q1`: the dispatcher delivers `q1` before `q2`. -/
theorem EventDispatcher.ticks_deliver_equal_weight_fifo (V : EventVTable P) (W : EventType)
    (d : EventDispatcher P) (q1 q2 : QueueEntry P) (ts : List Nat)
    (h1 : q1 ∈ d.event_queue) (_h2 : q2 ∈ d.event_queue)
    (hw : exactWeight q1.event = exactWeight q2.event ∨
      (CompareEventWeightLessThan q1.event q2.event = false ∧
        CompareEventWeightGreaterThan q1.event q2.event = false))
    (hseq : q1.seq < q2.seq) :
    ∃ tr, (ticks V W d ts).trace = d.trace ++ tr ∧
      ∀ pre x post, tr = pre ++ x :: post → x.seq = some q2.seq → x.event = q2.event →
        Effect.delivering (some q1.seq) q1.event ∈ pre ∧
        ∀ l ∈ d.getListeners (V.event_type q1.event) ++ d.getListeners W,
          Effect.listener l.first (some q1.seq) q1.event ∈ pre := by
  have hweq : eventWeight q1.event = eventWeight q2.event := by
    rcases hw with h | ⟨hlt, hgt⟩
    · have h1 := eventWeight_eq_emod q1.event
      have h2 := eventWeight_eq_emod q2.event
      rw [h] at h1
      exact Int.ofNat.inj (h1.trans h2.symm)
    · have h1 : ¬ eventWeight q1.event < eventWeight q2.event := by
        rw [← CompareEventWeightLessThan_iff, hlt]; simp
      have h2 : ¬ eventWeight q2.event < eventWeight q1.event := by
        rw [← CompareEventWeightGreaterThan_iff, hgt]; simp
      omega
  have hinit : OrderInv V W d.event_listeners d.trace q1 q2 d :=
    ⟨rfl, [], by simp, fun pre x post h => by simp at h, Or.inl ⟨h1, by simp⟩⟩
  obtain ⟨_, tr, htr, hgood, _⟩ :=
    orderInv_ticks_fifo V W d.event_listeners d.trace q1 q2 hweq hseq ts d hinit
  exact ⟨tr, htr, fun pre x post heq hs he => hgood pre x post heq ⟨hs, he⟩⟩

/-- Two events of delay 5: the event of subject 1 is notified first, the event of subject 2
second; in the trace of `tick(1); tick(10)` every effect of the second comes after the
delivery of the first. -/
theorem EventDispatcher.ticks_deliver_equal_weight_fifo_witness :
    ∃ tr, (ticks Fixture.vtable Fixture.kWildCardHashString
        (notify (notify (Fixture.dispatcher 0) (some (MockEvent.new 1 5)))
          (some (MockEvent.new 2 5))) [1, 10]).trace =
        (notify (notify (Fixture.dispatcher 0) (some (MockEvent.new 1 5)))
          (some (MockEvent.new 2 5))).trace ++ tr ∧
      ∀ pre x post, tr = pre ++ x :: post → x.seq = some 1 →
        x.event = (MockEvent.new 2 5).set_timestamp 0 →
        Effect.delivering (some 0) ((MockEvent.new 1 5).set_timestamp 0) ∈ pre ∧
        ∀ l ∈ (notify (notify (Fixture.dispatcher 0) (some (MockEvent.new 1 5)))
            (some (MockEvent.new 2 5))).getListeners
              (Fixture.vtable.event_type ((MockEvent.new 1 5).set_timestamp 0)) ++
            (notify (notify (Fixture.dispatcher 0) (some (MockEvent.new 1 5)))
              (some (MockEvent.new 2 5))).getListeners Fixture.kWildCardHashString,
          Effect.listener l.first (some 0) ((MockEvent.new 1 5).set_timestamp 0) ∈ pre :=
  ticks_deliver_equal_weight_fifo Fixture.vtable Fixture.kWildCardHashString
    (notify (notify (Fixture.dispatcher 0) (some (MockEvent.new 1 5)))
      (some (MockEvent.new 2 5)))
    (QueueEntry.mk 0 ((MockEvent.new 1 5).set_timestamp 0))
    (QueueEntry.mk 1 ((MockEvent.new 2 5).set_timestamp 0)) [1, 10]
    (List.Mem.head _) (List.Mem.tail _ (List.Mem.head _)) (Or.inl (by decide)) (by decide)

end FifoTheorems

/-! ## The listener registry and null events -/

section RegistryTheorems

open EventDispatcher

variable {P : Type}

theorem filter_replace_listener (l : EventListener P) (ls : List (EventListener P)) :
    (ls.map (fun x => if x.first = l.first then l else x)).filter
        (fun x => decide (x.first ≠ l.first)) =
      ls.filter (fun x => decide (x.first ≠ l.first)) := by
  induction ls with
  | nil => rfl
  | cons x xs ih =>
    by_cases hx : x.first = l.first
    · simp only [List.map_cons, if_pos hx]
      rw [List.filter_cons_of_neg (by simp), List.filter_cons_of_neg (by simp [hx])]
      exact ih
    · simp only [List.map_cons, if_neg hx]
      rw [List.filter_cons_of_pos (by simp [hx]), List.filter_cons_of_pos (by simp [hx])]
      rw [ih]

/-- C13: after `connect(T, l)` followed by `disconnect(T, L)`, `L` being the listener type of
`l`, the listeners of `T` are the listeners `T` had before, in their order, without the
entries of listener type `L`: no entry of type `L` is left and every other listener is still
there in its relative order. The lists of the other event types, the queue, the current time
and the trace are what they were. -/
theorem EventDispatcher.connect_then_disconnect (d : EventDispatcher P) (T : EventType)
    (l : EventListener P) :
    (disconnect (connect d T l) T l.first).getListeners T =
        (d.getListeners T).filter (fun x => decide (x.first ≠ l.first)) ∧
    (∀ x ∈ (disconnect (connect d T l) T l.first).getListeners T, x.first ≠ l.first) ∧
    (∀ x ∈ d.getListeners T, x.first ≠ l.first →
        x ∈ (disconnect (connect d T l) T l.first).getListeners T) ∧
    (∀ T2 : EventType, T2.ident ≠ T.ident →
        (disconnect (connect d T l) T l.first).getListeners T2 = d.getListeners T2) ∧
    (disconnect (connect d T l) T l.first).event_queue = d.event_queue ∧
    (disconnect (connect d T l) T l.first).current_timestep = d.current_timestep ∧
    (disconnect (connect d T l) T l.first).trace = d.trace := by
  have hmain : (disconnect (connect d T l) T l.first).getListeners T =
      (d.getListeners T).filter (fun x => decide (x.first ≠ l.first)) := by
    simp only [getListeners, disconnect, connect, if_true]
    by_cases hany : (d.event_listeners T.ident).any (fun x => decide (x.first = l.first)) = true
    · rw [if_pos hany]
      exact filter_replace_listener l _
    · rw [if_neg hany, List.filter_append]
      simp
  refine ⟨hmain, ?_, ?_, ?_, rfl, rfl, rfl⟩
  · intro x hx
    rw [hmain] at hx
    simpa using (List.mem_filter.1 hx).2
  · intro x hx hne
    rw [hmain]
    exact List.mem_filter.2 ⟨hx, by simpa using hne⟩
  · intro T2 hne
    simp [getListeners, disconnect, connect, hne]

/-- C14: `deliver(null)` returns false and `notify(null)` does nothing: in both cases the
dispatcher is what it was, its queue, its registry, its current time and its trace, so no
listener is invoked. -/
theorem EventDispatcher.null_event_ignored (V : EventVTable P) (W : EventType)
    (d : EventDispatcher P) :
    (deliver V W d none).2 = false ∧ (deliver V W d none).1 = d ∧ notify d none = d ∧
    (deliver V W d none).1.event_queue = d.event_queue ∧
    (deliver V W d none).1.event_listeners = d.event_listeners ∧
    (deliver V W d none).1.current_timestep = d.current_timestep ∧
    (deliver V W d none).1.trace = d.trace ∧
    (notify d none).event_queue = d.event_queue ∧
    (notify d none).event_listeners = d.event_listeners ∧
    (notify d none).current_timestep = d.current_timestep ∧
    (notify d none).trace = d.trace :=
  ⟨rfl, rfl, rfl, rfl, rfl, rfl, rfl, rfl, rfl, rfl, rfl⟩

end RegistryTheorems

/-! ## Construction and mutation of events -/

section ConstructionTheorems

variable {P : Type}

/-- C15: an event built by either constructor of `BaseEvent`, and so by either constructor of
`SimpleEvent`, has timestamp 0, priority 0 and no chained next event, its subject and delay
are the arguments of the constructor, and it has a completion callback exactly when the
constructor with the callback argument built it. -/
theorem BaseEvent.constructed_fields (subject delay_ms : Nat) (callback : EventCallback)
    (derived : P) (event_type : EventType) :
    ((BaseEvent.new subject delay_ms derived).timestamp = 0 ∧
      (BaseEvent.new subject delay_ms derived).priority = 0 ∧
      (BaseEvent.new subject delay_ms derived).next = none ∧
      (BaseEvent.new subject delay_ms derived).subject = subject ∧
      (BaseEvent.new subject delay_ms derived).delay_ms = delay_ms ∧
      (BaseEvent.new subject delay_ms derived).callback_ = none) ∧
    ((BaseEvent.newWithCallback subject delay_ms callback derived).timestamp = 0 ∧
      (BaseEvent.newWithCallback subject delay_ms callback derived).priority = 0 ∧
      (BaseEvent.newWithCallback subject delay_ms callback derived).next = none ∧
      (BaseEvent.newWithCallback subject delay_ms callback derived).subject = subject ∧
      (BaseEvent.newWithCallback subject delay_ms callback derived).delay_ms = delay_ms ∧
      (BaseEvent.newWithCallback subject delay_ms callback derived).callback_
        = some callback) ∧
    ((SimpleEvent.new event_type subject delay_ms).timestamp = 0 ∧
      (SimpleEvent.new event_type subject delay_ms).priority = 0 ∧
      (SimpleEvent.new event_type subject delay_ms).next = none ∧
      (SimpleEvent.new event_type subject delay_ms).subject = subject ∧
      (SimpleEvent.new event_type subject delay_ms).delay_ms = delay_ms ∧
      (SimpleEvent.new event_type subject delay_ms).callback_ = none ∧
      SimpleEvent.vtable.event_type (SimpleEvent.new event_type subject delay_ms)
        = event_type) ∧
    ((SimpleEvent.newWithCallback event_type subject delay_ms callback).timestamp = 0 ∧
      (SimpleEvent.newWithCallback event_type subject delay_ms callback).priority = 0 ∧
      (SimpleEvent.newWithCallback event_type subject delay_ms callback).next = none ∧
      (SimpleEvent.newWithCallback event_type subject delay_ms callback).subject = subject ∧
      (SimpleEvent.newWithCallback event_type subject delay_ms callback).delay_ms = delay_ms ∧
      (SimpleEvent.newWithCallback event_type subject delay_ms callback).callback_
        = some callback ∧
      SimpleEvent.vtable.event_type
        (SimpleEvent.newWithCallback event_type subject delay_ms callback) = event_type) :=
  ⟨⟨rfl, rfl, rfl, rfl, rfl, rfl⟩, ⟨rfl, rfl, rfl, rfl, rfl, rfl⟩,
    ⟨rfl, rfl, rfl, rfl, rfl, rfl, rfl⟩, ⟨rfl, rfl, rfl, rfl, rfl, rfl, rfl⟩⟩

/-- C16, as amended: `BaseEvent` has a mutator for each of subject, timestamp, delay,
priority and next: `subject(v)`, `delay_ms(v)` and `next(v)` set the subject, the delay and
the chained next event of an existing event. The mutators `timestamp(v)` and `priority(v)`
leave subject, delay and next as they are, so the delay component of the weight of an event
is fixed as long as `delay_ms(v)` is not called. -/
theorem BaseEvent.mutators_of_subject_delay_next (e : BaseEvent P) (v : Nat)
    (p : EventPriority) (n : IEventPtr P) :
    ((e.set_subject v).subject = v ∧ (e.set_delay_ms v).delay_ms = v ∧
      (e.set_next n).next = n) ∧
    ((e.set_timestamp v).subject = e.subject ∧ (e.set_timestamp v).delay_ms = e.delay_ms ∧
      (e.set_timestamp v).next = e.next) ∧
    ((e.set_priority p).subject = e.subject ∧ (e.set_priority p).delay_ms = e.delay_ms ∧
      (e.set_priority p).next = e.next) :=
  ⟨⟨rfl, rfl, rfl⟩, ⟨rfl, rfl, rfl⟩, ⟨rfl, rfl, rfl⟩⟩

/-- The mutators `subject(v)`, `delay_ms(v)` and `next(v)` change an event after its
construction: an event built with subject 1 and delay 5 gets subject 2, delay 7, with it
another weight, and a chained next event, as `my_event1->next(my_event2)` of the unit test
does. -/
theorem BaseEvent.mutators_change_counterexample :
    ((BaseEvent.new 1 5 ()).set_subject 2).subject ≠ (BaseEvent.new 1 5 ()).subject ∧
    ((BaseEvent.new 1 5 ()).set_delay_ms 7).delay_ms ≠ (BaseEvent.new 1 5 ()).delay_ms ∧
    eventWeight ((BaseEvent.new 1 5 ()).set_delay_ms 7) ≠ eventWeight (BaseEvent.new 1 5 ()) ∧
    ((MockEvent.newWithCallback 0 0 1).set_next (some (MockEvent.newWithCallback 0 0 2))).next
      = some (MockEvent.newWithCallback 0 0 2) ∧
    (MockEvent.newWithCallback 0 0 1).next = none := by
  refine ⟨?_, ?_, ?_, rfl, rfl⟩ <;> decide

end ConstructionTheorems

/-! ## Serialization round trip -/

section RoundTripTheorems

variable {P Q : Type}

theorem decodeU32_encodeU32 (v : Nat) (rest : List (Fin 256)) :
    ByteBuffer.read_u32 { data := encodeU32 v ++ rest } = some (v % UINT32_MOD, { data := rest }) ∧
    ByteBuffer.front_u32 { data := encodeU32 v ++ rest } = some (v % UINT32_MOD) := by
  have h : decodeU32 ⟨v % 256, Nat.mod_lt _ (by decide)⟩ ⟨v / 256 % 256, Nat.mod_lt _ (by decide)⟩
      ⟨v / 65536 % 256, Nat.mod_lt _ (by decide)⟩ ⟨v / 16777216 % 256, Nat.mod_lt _ (by decide)⟩
      = v % UINT32_MOD := by
    simp only [decodeU32, UINT32_MOD]
    omega
  constructor
  · simp only [ByteBuffer.read_u32, encodeU32, List.cons_append, List.nil_append, h]
  · simp only [ByteBuffer.front_u32, encodeU32, List.cons_append, List.nil_append, h]

theorem MockEvent.toInt32_toUInt32 (v : Int) (h0 : -(2 : Int) ^ 31 ≤ v) (h1 : v < (2 : Int) ^ 31) :
    MockEvent.toInt32 (MockEvent.toUInt32 v % UINT32_MOD) = v := by
  unfold MockEvent.toInt32 MockEvent.toUInt32 UINT32_MOD
  have hnn : (0 : Int) ≤ v % 4294967296 := by omega
  have hw := Int.toNat_of_nonneg hnn
  norm_num
  split_ifs with hlt
  · omega
  · omega

/-- C17: let an event `e` of a class whose `onSerialize` appends a payload, and whose type
ident is a 32-bit value, be serialized into an empty buffer. An event `r` whose type has
the same ident accepts the buffer: `deserialize` does not reject it and calls `onDeserialize`
once, with the payload. An event `r` whose type has another ident rejects it. For the MockEvent
of the tests, whose payload is the `int` `some_event_val`, the receiving event has the value
of the sender after the call, and the buffer is used up. -/
theorem BaseEvent.serialize_deserialize_round_trip (V1 : EventVTable P) (V2 : EventVTable Q)
    (e : BaseEvent P) (r : BaseEvent Q) (payload : List (Fin 256))
    (ty : EventType) (m rm : BaseEvent Int)
    (hid : (V1.event_type e).ident < UINT32_MOD)
    (happ : ∀ b : ByteBuffer, V1.onSerialize e b = { data := b.data ++ payload })
    (hty : ty.ident < UINT32_MOD)
    (hval : -(2 : Int) ^ 31 ≤ MockEvent.some_event_val m ∧
      MockEvent.some_event_val m < (2 : Int) ^ 31) :
    ((V2.event_type r).ident = (V1.event_type e).ident →
      (r.deserialize V2 (e.serialize V1 { data := [] })).rejected = false ∧
      (r.deserialize V2 (e.serialize V1 { data := [] })).hookCalls = [{ data := payload }]) ∧
    ((V2.event_type r).ident ≠ (V1.event_type e).ident →
      (r.deserialize V2 (e.serialize V1 { data := [] })).rejected = true ∧
      (r.deserialize V2 (e.serialize V1 { data := [] })).event = r) ∧
    ((rm.deserialize (MockEvent.vtable ty)
        (m.serialize (MockEvent.vtable ty) { data := [] })).rejected = false ∧
      MockEvent.some_event_val (rm.deserialize (MockEvent.vtable ty)
        (m.serialize (MockEvent.vtable ty) { data := [] })).event = MockEvent.some_event_val m ∧
      (rm.deserialize (MockEvent.vtable ty)
        (m.serialize (MockEvent.vtable ty) { data := [] })).buffer = { data := [] }) := by
  have hser : e.serialize V1 { data := [] } =
      { data := encodeU32 (V1.event_type e).ident ++ payload } := by
    simp [BaseEvent.serialize, happ, ByteBuffer.write_u32]
  have hread := decodeU32_encodeU32 (V1.event_type e).ident payload
  rw [Nat.mod_eq_of_lt hid] at hread
  have hsize : ¬ (e.serialize V1 { data := [] }).size < 4 := by
    rw [hser]
    simp [ByteBuffer.size, encodeU32]
  refine ⟨?_, ?_, ?_⟩
  · intro hsame
    unfold BaseEvent.deserialize
    rw [if_neg hsize, hser, hread.1]
    simp [hsame]
  · intro hne
    unfold BaseEvent.deserialize
    rw [if_neg hsize, hser, hread.1]
    simp [hne]
  · have hserm : m.serialize (MockEvent.vtable ty) { data := [] } =
        { data := encodeU32 ty.ident ++ encodeU32 (MockEvent.toUInt32 m.derived) } := by
      simp [BaseEvent.serialize, MockEvent.vtable, ByteBuffer.write_u32]
    have hr1 := decodeU32_encodeU32 ty.ident (encodeU32 (MockEvent.toUInt32 m.derived))
    rw [Nat.mod_eq_of_lt hty] at hr1
    have hr2 := decodeU32_encodeU32 (MockEvent.toUInt32 m.derived) []
    rw [List.append_nil] at hr2
    have hsz : ¬ (m.serialize (MockEvent.vtable ty) { data := [] }).size < 4 := by
      rw [hserm]
      simp [ByteBuffer.size, encodeU32]
    have hback := MockEvent.toInt32_toUInt32 m.derived hval.1 hval.2
    unfold BaseEvent.deserialize
    rw [if_neg hsz, hserm, hr1.1]
    simp only [MockEvent.vtable, ne_eq, not_true_eq_false, if_false, hr2.1]
    exact ⟨trivial, hback, trivial⟩

/-- A MockEvent of value -2 and ident 7 is serialized into an empty buffer; a fresh MockEvent
of ident 7 reads the value -2 from it, a SimpleEvent of ident 8 rejects it. -/
theorem BaseEvent.serialize_deserialize_round_trip_witness :
    (MockEvent.some_event_val ((MockEvent.new 0 0).deserialize (MockEvent.vtable ⟨7⟩)
      ((MockEvent.set_some_event_val (MockEvent.new 3 4) (-2)).serialize
        (MockEvent.vtable ⟨7⟩) { data := [] })).event =
      MockEvent.some_event_val (MockEvent.set_some_event_val (MockEvent.new 3 4) (-2))) ∧
    ((SimpleEvent.new ⟨8⟩ 0 0).deserialize SimpleEvent.vtable
      ((MockEvent.set_some_event_val (MockEvent.new 3 4) (-2)).serialize
        (MockEvent.vtable ⟨7⟩) { data := [] })).rejected = true :=
  ⟨(BaseEvent.serialize_deserialize_round_trip (MockEvent.vtable ⟨7⟩) SimpleEvent.vtable
      (MockEvent.set_some_event_val (MockEvent.new 3 4) (-2)) (SimpleEvent.new ⟨8⟩ 0 0)
      (encodeU32 (MockEvent.toUInt32 (-2))) ⟨7⟩
      (MockEvent.set_some_event_val (MockEvent.new 3 4) (-2)) (MockEvent.new 0 0)
      (by decide) (fun _ => rfl) (by decide) (by decide)).2.2.2.1,
   ((BaseEvent.serialize_deserialize_round_trip (MockEvent.vtable ⟨7⟩) SimpleEvent.vtable
      (MockEvent.set_some_event_val (MockEvent.new 3 4) (-2)) (SimpleEvent.new ⟨8⟩ 0 0)
      (encodeU32 (MockEvent.toUInt32 (-2))) ⟨7⟩
      (MockEvent.set_some_event_val (MockEvent.new 3 4) (-2)) (MockEvent.new 0 0)
      (by decide) (fun _ => rfl) (by decide) (by decide)).2.1 (by decide)).1⟩

end RoundTripTheorems

/-! ## The comparators as an order -/

section OrderingTheorems

variable {P : Type}

/-- C18: `CompareEventWeightLessThan` is a strict weak ordering of events: it is irreflexive,
asymmetric and transitive, and being comparable in neither direction is transitive. For two
events exactly one of three cases holds: the first compares less, the first compares greater,
or both comparators return false. `CompareEventWeightLessThan(a, b)` is
`CompareEventWeightGreaterThan(b, a)`. -/
theorem CompareEventWeightLessThan_strict_weak_order (a b c : BaseEvent P) :
    CompareEventWeightLessThan a a = false ∧
    (CompareEventWeightLessThan a b = true → CompareEventWeightLessThan b a = false) ∧
    (CompareEventWeightLessThan a b = true → CompareEventWeightLessThan b c = true →
      CompareEventWeightLessThan a c = true) ∧
    (CompareEventWeightLessThan a b = false → CompareEventWeightLessThan b a = false →
      CompareEventWeightLessThan b c = false → CompareEventWeightLessThan c b = false →
        CompareEventWeightLessThan a c = false ∧ CompareEventWeightLessThan c a = false) ∧
    ((CompareEventWeightLessThan a b = true ∧ CompareEventWeightGreaterThan a b = false) ∨
      (CompareEventWeightLessThan a b = false ∧ CompareEventWeightGreaterThan a b = true) ∨
      (CompareEventWeightLessThan a b = false ∧ CompareEventWeightGreaterThan a b = false)) ∧
    ¬ (CompareEventWeightLessThan a b = true ∧ CompareEventWeightGreaterThan a b = true) ∧
    CompareEventWeightLessThan a b = CompareEventWeightGreaterThan b a := by
  have hf : ∀ x y : BaseEvent P, CompareEventWeightLessThan x y = false ↔
      ¬ eventWeight x < eventWeight y := by
    intro x y
    rw [← CompareEventWeightLessThan_iff]
    simp
  have hg : ∀ x y : BaseEvent P, CompareEventWeightGreaterThan x y = false ↔
      ¬ eventWeight y < eventWeight x := by
    intro x y
    rw [← CompareEventWeightGreaterThan_iff]
    simp
  refine ⟨?_, ?_, ?_, ?_, ?_, ?_, ?_⟩
  · rw [hf]; omega
  · rw [CompareEventWeightLessThan_iff, hf]; omega
  · rw [CompareEventWeightLessThan_iff, CompareEventWeightLessThan_iff,
      CompareEventWeightLessThan_iff]; omega
  · rw [hf, hf, hf, hf, hf, hf]; omega
  · rw [CompareEventWeightLessThan_iff, CompareEventWeightGreaterThan_iff, hf, hg]; omega
  · rw [CompareEventWeightLessThan_iff, CompareEventWeightGreaterThan_iff]; omega
  · rw [Bool.eq_iff_iff, CompareEventWeightLessThan_iff, CompareEventWeightGreaterThan_iff]

/-- Three events of delays 3, 5 and 7: the comparisons chain; and of three events of delay 5
with different subjects the first and the third are comparable in neither direction. -/
theorem CompareEventWeightLessThan_strict_weak_order_witness :
    CompareEventWeightLessThan (BaseEvent.new 0 3 ()) (BaseEvent.new 0 7 ()) = true ∧
    (CompareEventWeightLessThan (BaseEvent.new 1 5 ()) (BaseEvent.new 3 5 ()) = false ∧
      CompareEventWeightLessThan (BaseEvent.new 3 5 ()) (BaseEvent.new 1 5 ()) = false) :=
  ⟨(CompareEventWeightLessThan_strict_weak_order (BaseEvent.new 0 3 ()) (BaseEvent.new 0 5 ())
      (BaseEvent.new 0 7 ())).2.2.1 (by decide) (by decide),
   (CompareEventWeightLessThan_strict_weak_order (BaseEvent.new 1 5 ()) (BaseEvent.new 2 5 ())
      (BaseEvent.new 3 5 ())).2.2.2.1 (by decide) (by decide) (by decide) (by decide)⟩

/-- C19: the comparators compute each weight as `(timestamp + delay_ms) + priority` in
unsigned 64-bit arithmetic: the sum of timestamp and delay is reduced modulo `2 ^ 64`, the
priority is converted to its value modulo `2 ^ 64`, and their sum is reduced modulo `2 ^ 64`.
For two events whose exact integer sums `timestamp + delay_ms + priority` lie in
`[0, 2 ^ 64)` and whose `timestamp + delay_ms` is below `2 ^ 64`, the results of both
comparators are the comparisons of the exact integer sums. -/
theorem CompareEventWeight_uint64 (a b : BaseEvent P) :
    (CompareEventWeightLessThan a b = true ↔
      ((a.timestamp + a.delay_ms) % 2 ^ 64 + (a.priority % (2 : Int) ^ 64).toNat) % 2 ^ 64 <
        ((b.timestamp + b.delay_ms) % 2 ^ 64 + (b.priority % (2 : Int) ^ 64).toNat) % 2 ^ 64) ∧
    (CompareEventWeightGreaterThan a b = true ↔
      ((a.timestamp + a.delay_ms) % 2 ^ 64 + (a.priority % (2 : Int) ^ 64).toNat) % 2 ^ 64 >
        ((b.timestamp + b.delay_ms) % 2 ^ 64 + (b.priority % (2 : Int) ^ 64).toNat) % 2 ^ 64) ∧
    (0 ≤ exactWeight a → exactWeight a < (2 : Int) ^ 64 → a.timestamp + a.delay_ms < 2 ^ 64 →
      0 ≤ exactWeight b → exactWeight b < (2 : Int) ^ 64 → b.timestamp + b.delay_ms < 2 ^ 64 →
        (CompareEventWeightLessThan a b = true ↔ exactWeight a < exactWeight b) ∧
        (CompareEventWeightGreaterThan a b = true ↔ exactWeight a > exactWeight b)) := by
  have hM : ((UINT64_MOD : Nat) : Int) = (2 : Int) ^ 64 := by
    unfold UINT64_MOD; norm_num
  have hw : ∀ x : BaseEvent P, eventWeight x =
      ((x.timestamp + x.delay_ms) % 2 ^ 64 + (x.priority % (2 : Int) ^ 64).toNat) % 2 ^ 64 := by
    intro x
    unfold eventWeight add_u64 toUInt64
    rw [hM]
    rfl
  refine ⟨?_, ?_, ?_⟩
  · rw [CompareEventWeightLessThan_iff, hw a, hw b]
  · rw [CompareEventWeightGreaterThan_iff, hw a, hw b]
  · intro ha0 ha1 _ hb0 hb1 _
    have hea : ((eventWeight a : Nat) : Int) = exactWeight a := by
      rw [eventWeight_eq_emod, hM, Int.emod_eq_of_lt ha0 ha1]
    have heb : ((eventWeight b : Nat) : Int) = exactWeight b := by
      rw [eventWeight_eq_emod, hM, Int.emod_eq_of_lt hb0 hb1]
    rw [CompareEventWeightLessThan_iff, CompareEventWeightGreaterThan_iff, ← hea, ← heb]
    exact ⟨Int.ofNat_lt.symm, Int.ofNat_lt.symm⟩

/-- An event of priority -2 stamped at time 10 and an event of delay 9: both exact sums lie
in the 64-bit range and the comparators compare them. -/
theorem CompareEventWeight_uint64_witness :
    (CompareEventWeightLessThan (((BaseEvent.new 0 0 ()).set_priority (-2)).set_timestamp 10)
        (BaseEvent.new 0 9 ()) = true ↔
      exactWeight (((BaseEvent.new 0 0 ()).set_priority (-2)).set_timestamp 10) <
        exactWeight (BaseEvent.new 0 9 ())) ∧
    (CompareEventWeightGreaterThan (((BaseEvent.new 0 0 ()).set_priority (-2)).set_timestamp 10)
        (BaseEvent.new 0 9 ()) = true ↔
      exactWeight (((BaseEvent.new 0 0 ()).set_priority (-2)).set_timestamp 10) >
        exactWeight (BaseEvent.new 0 9 ())) :=
  (CompareEventWeight_uint64 (((BaseEvent.new 0 0 ()).set_priority (-2)).set_timestamp 10)
    (BaseEvent.new 0 9 ())).2.2 (by decide) (by decide) (by decide) (by decide) (by decide)
    (by decide)

/-- C20: a SimpleEvent that has a completion callback invokes it exactly once in
`consume(true)` and exactly once in `consume(false)`: `SimpleEvent::onConsume` returns true
for every input, so the callback fires whatever the listeners returned. This holds of the
event as built by the constructor with a callback and after any mutator. -/
theorem SimpleEvent.consume_always_fires (e : BaseEvent EventType) (cb : EventCallback)
    (handled : Bool) (event_type : EventType) (subject_id delay_ms : Nat)
    (h : e.callback_ = some cb) :
    SimpleEvent.vtable.onConsume e handled = true ∧
    e.consume SimpleEvent.vtable true = [cb] ∧
    e.consume SimpleEvent.vtable false = [cb] ∧
    e.consume SimpleEvent.vtable handled = [cb] ∧
    (SimpleEvent.newWithCallback event_type subject_id delay_ms cb).consume
      SimpleEvent.vtable true = [cb] ∧
    (SimpleEvent.newWithCallback event_type subject_id delay_ms cb).consume
      SimpleEvent.vtable false = [cb] :=
  ⟨rfl, BaseEvent.consume_of_hook _ e true cb h rfl,
    BaseEvent.consume_of_hook _ e false cb h rfl,
    BaseEvent.consume_of_hook _ e handled cb h rfl, rfl, rfl⟩

/-- A SimpleEvent built with callback 9 and given a priority fires callback 9 once whether
it was handled or not. -/
theorem SimpleEvent.consume_always_fires_witness :
    ((SimpleEvent.newWithCallback ⟨7⟩ 1 2 9).set_priority 3).consume SimpleEvent.vtable true
      = [9] ∧
    ((SimpleEvent.newWithCallback ⟨7⟩ 1 2 9).set_priority 3).consume SimpleEvent.vtable false
      = [9] :=
  ⟨(SimpleEvent.consume_always_fires ((SimpleEvent.newWithCallback ⟨7⟩ 1 2 9).set_priority 3)
      9 true ⟨7⟩ 1 2 rfl).2.1,
   (SimpleEvent.consume_always_fires ((SimpleEvent.newWithCallback ⟨7⟩ 1 2 9).set_priority 3)
      9 true ⟨7⟩ 1 2 rfl).2.2.1⟩

end OrderingTheorems

/-! ## Frame of the mutators and of a rejected buffer -/

section FrameTheorems

variable {P : Type}

/-- C21: each mutator of `BaseEvent` changes its own attribute and nothing else: after
`subject(v)`, `timestamp(v)`, `delay_ms(v)`, `priority(p)` or `next(n)` the matching accessor
returns the argument and the other four accessors return what they returned before; the
callback and the members of the concrete class are untouched as well. The accessors return
the data members. The accessors, `serialize` and `consume` are const member functions: they
are functions of the event that return a value, a buffer, the callbacks invoked, and no
changed event. -/
theorem BaseEvent.mutator_frame (e : BaseEvent P) (v : Nat) (p : EventPriority)
    (n : IEventPtr P) :
    ((e.set_subject v).subject = v ∧ (e.set_subject v).timestamp = e.timestamp ∧
      (e.set_subject v).delay_ms = e.delay_ms ∧ (e.set_subject v).priority = e.priority ∧
      (e.set_subject v).next = e.next ∧ (e.set_subject v).callback_ = e.callback_ ∧
      (e.set_subject v).derived = e.derived) ∧
    ((e.set_timestamp v).timestamp = v ∧ (e.set_timestamp v).subject = e.subject ∧
      (e.set_timestamp v).delay_ms = e.delay_ms ∧ (e.set_timestamp v).priority = e.priority ∧
      (e.set_timestamp v).next = e.next ∧ (e.set_timestamp v).callback_ = e.callback_ ∧
      (e.set_timestamp v).derived = e.derived) ∧
    ((e.set_delay_ms v).delay_ms = v ∧ (e.set_delay_ms v).subject = e.subject ∧
      (e.set_delay_ms v).timestamp = e.timestamp ∧ (e.set_delay_ms v).priority = e.priority ∧
      (e.set_delay_ms v).next = e.next ∧ (e.set_delay_ms v).callback_ = e.callback_ ∧
      (e.set_delay_ms v).derived = e.derived) ∧
    ((e.set_priority p).priority = p ∧ (e.set_priority p).subject = e.subject ∧
      (e.set_priority p).timestamp = e.timestamp ∧ (e.set_priority p).delay_ms = e.delay_ms ∧
      (e.set_priority p).next = e.next ∧ (e.set_priority p).callback_ = e.callback_ ∧
      (e.set_priority p).derived = e.derived) ∧
    ((e.set_next n).next = n ∧ (e.set_next n).subject = e.subject ∧
      (e.set_next n).timestamp = e.timestamp ∧ (e.set_next n).delay_ms = e.delay_ms ∧
      (e.set_next n).priority = e.priority ∧ (e.set_next n).callback_ = e.callback_ ∧
      (e.set_next n).derived = e.derived) ∧
    (e.subject = e.subject_ ∧ e.timestamp = e.timestamp_ ∧ e.delay_ms = e.delay_ms_ ∧
      e.priority = e.priority_ ∧ e.next = e.next_) :=
  ⟨⟨rfl, rfl, rfl, rfl, rfl, rfl, rfl⟩, ⟨rfl, rfl, rfl, rfl, rfl, rfl, rfl⟩,
    ⟨rfl, rfl, rfl, rfl, rfl, rfl, rfl⟩, ⟨rfl, rfl, rfl, rfl, rfl, rfl, rfl⟩,
    ⟨rfl, rfl, rfl, rfl, rfl, rfl, rfl⟩, ⟨rfl, rfl, rfl, rfl, rfl⟩⟩

/-- C22: what a rejected `deserialize` has taken from its buffer. When the buffer holds fewer
than four bytes the call is rejected and the buffer is what it was: the test of the size
comes first and the ident is not read. When the buffer holds at least four bytes and the
32-bit value at its front is not the ident of the type of the event, the call is rejected
and the buffer has lost its first four bytes and nothing more; `onDeserialize`, which could
read further, is not called. -/
theorem BaseEvent.deserialize_rejected_consumes (V : EventVTable P) (e : BaseEvent P)
    (input : ByteBuffer) :
    (input.size < 4 →
      (e.deserialize V input).rejected = true ∧ (e.deserialize V input).buffer = input) ∧
    (¬ input.size < 4 → input.front_u32 ≠ some (V.event_type e).ident →
      (e.deserialize V input).rejected = true ∧
      (e.deserialize V input).buffer = { data := input.data.drop 4 } ∧
      (e.deserialize V input).buffer.size + 4 = input.size ∧
      input.data = input.data.take 4 ++ (e.deserialize V input).buffer.data ∧
      (e.deserialize V input).hookCalls = []) := by
  refine ⟨fun hsz => ?_, fun hsz hne => ?_⟩
  · simp [BaseEvent.deserialize, hsz]
  · obtain ⟨v, hfront, hread⟩ := ByteBuffer.read_u32_of_size input hsz
    have hid : ¬ (V.event_type e).ident = v := by
      intro h
      exact hne (by rw [hfront, h])
    have hlen : 4 ≤ input.data.length := Nat.le_of_not_lt hsz
    have hres : e.deserialize V input =
        { event := e, buffer := { data := input.data.drop 4 }, rejected := true,
          hookCalls := [] } := by
      simp [BaseEvent.deserialize, hsz, hread, hid]
    rw [hres]
    refine ⟨rfl, rfl, ?_, ?_, rfl⟩
    · show (input.data.drop 4).length + 4 = input.data.length
      rw [List.length_drop]
      omega
    · exact (List.take_append_drop 4 input.data).symm

/-- A buffer of three bytes is rejected untouched; a buffer that starts with the ident 9 is
rejected by an event of ident 7 with its first four bytes taken and the two bytes behind
them left. -/
theorem BaseEvent.deserialize_rejected_consumes_witness :
    ((SimpleEvent.new ⟨7⟩ 0 0).deserialize SimpleEvent.vtable ⟨[7, 0, 0]⟩).buffer
      = ⟨[7, 0, 0]⟩ ∧
    ((SimpleEvent.new ⟨7⟩ 0 0).deserialize SimpleEvent.vtable ⟨[9, 0, 0, 0, 1, 2]⟩).buffer
      = ⟨[1, 2]⟩ :=
  ⟨((BaseEvent.deserialize_rejected_consumes SimpleEvent.vtable (SimpleEvent.new ⟨7⟩ 0 0)
      ⟨[7, 0, 0]⟩).1 (by decide)).2,
   ((BaseEvent.deserialize_rejected_consumes SimpleEvent.vtable (SimpleEvent.new ⟨7⟩ 0 0)
      ⟨[9, 0, 0, 0, 1, 2]⟩).2 (by decide) (by decide)).2.1⟩

end FrameTheorems

end anh
